import Mathlib

/-!
# Verification of the ProjectRewind EPG guide core

Shallow embedding of the guide subsystem implemented in
`backend/parseM3U.js` (M3U backend parser plus the embedded frontend
`main.js`): the XMLTV feed parser (`parseEpgXml` with its inner
`parseTimeStr`), the schedule indices built from it (`epgSchedule`,
`epgScheduleByTvgId`, and the normalized map built in `loadEpg`), the slot
matcher (`findProgrammeForSlot`), the per-channel presence test used by
`updateInfoDisplay`, and the time-window scroll handlers.

Conventions of the embedding:
* JS `Date` values are absolute instants in milliseconds since the Unix
  epoch, modelled as `Int`; an invalid date (`NaN` time value) is `none`
  in an `Option Int`.
* The caller's local timezone offset (`new Date().getTimezoneOffset()`,
  minutes) is environmental; it is passed around as an explicit `Int`
  parameter named `localOffset`.
* JS objects used as string-keyed dictionaries are association lists in
  insertion order.  Key enumeration (`Object.keys`, used when `loadEpg`
  builds the normalized index) follows insertion order for the
  non-integer-like keys exercised here.
* The DOM parser itself (`DOMParser`) is a platform collaborator, not
  repository code; its output is modelled by `XmlDoc` below, with absent
  elements/attributes as `Option`.  A document with no recognizable
  `channel`/`programme` elements (including the one produced for the
  empty string or unparseable markup) has both lists empty.
-/

/-! ## Association-list model of JS string-keyed objects -/

/-- First-match lookup, `obj[k]` (`none` = `undefined`). -/
def lookupKey {α : Type} : List (String × α) → String → Option α
  | [], _ => none
  | (k', v') :: rest, k => if k' = k then some v' else lookupKey rest k

/-- `obj[k] = v`: overwrite in place if the key exists, else append. -/
def setKey {α : Type} : List (String × α) → String → α → List (String × α)
  | [], k, v => [(k, v)]
  | (k', v') :: rest, k, v =>
    if k' = k then (k', v) :: rest else (k', v') :: setKey rest k v

/-! ## Characters, JS `parseInt`, and the timezone-offset regex -/

/-- The character `'0' + n` for a decimal digit value `n ≤ 9`. -/
def digitChar (n : Nat) : Char := Char.ofNat (48 + n)

/-- Numeric value of a decimal digit character. -/
def digitVal (c : Char) : Int := (c.toNat : Int) - 48

/-- Whitespace skipped by JS `parseInt`. -/
def isJsSpace (c : Char) : Bool :=
  c == ' ' || c == '\t' || c == '\n' || c == '\r' || c == '\x0b' || c == '\x0c'

/-- JS `String.prototype.trim` (the whitespace classes relevant to feed
text), implemented structurally over the character list. -/
def jsTrim (s : String) : String :=
  ⟨((s.data.dropWhile isJsSpace).reverse.dropWhile isJsSpace).reverse⟩

/-- JS `String.prototype.toLowerCase` restricted to its ASCII action
(`Char.toLower` maps only basic latin letters), which covers the
case-normalization behaviour exercised by the guide. -/
def jsToLowerCase (s : String) : String :=
  ⟨s.data.map Char.toLower⟩

def isHexDigitChar (c : Char) : Bool :=
  c.isDigit || ('a' ≤ c && c ≤ 'f') || ('A' ≤ c && c ≤ 'F')

def hexVal (c : Char) : Int :=
  if c.isDigit then (c.toNat : Int) - 48
  else if 'a' ≤ c && c ≤ 'f' then (c.toNat : Int) - 87
  else (c.toNat : Int) - 55

/-- Value of a digit string in base `b`. -/
def digitsValBase (b : Int) (f : Char → Int) (ds : List Char) : Int :=
  ds.foldl (fun a c => b * a + f c) 0

/-- JS `parseInt(s, 10-or-16)` after whitespace/sign handling: a leading
`0x`/`0X` switches to hexadecimal, otherwise the leading decimal digit
run is taken; no digits gives `NaN` (`none`).  Trailing garbage is
ignored, as in JS. -/
def jsParseIntCore (cs : List Char) : Option Int :=
  match cs with
  | c0 :: x :: rest =>
    if c0 = '0' ∧ (x = 'x' ∨ x = 'X') then
      let hs := rest.takeWhile isHexDigitChar
      if hs.isEmpty then none else some (digitsValBase 16 hexVal hs)
    else
      let ds := (c0 :: x :: rest).takeWhile Char.isDigit
      if ds.isEmpty then none else some (digitsValBase 10 digitVal ds)
  | _ =>
    let ds := cs.takeWhile Char.isDigit
    if ds.isEmpty then none else some (digitsValBase 10 digitVal ds)

/-- JS `parseInt(str)` (radix 10 unless a `0x` prefix follows the sign). -/
def jsParseInt (cs : List Char) : Option Int :=
  match cs.dropWhile isJsSpace with
  | [] => none
  | c :: r =>
    if c = '+' then jsParseIntCore r
    else if c = '-' then (jsParseIntCore r).map (fun n => -n)
    else jsParseIntCore (c :: r)

/-- JS `String.prototype.slice(a, b)` for `0 ≤ a ≤ b`. -/
def jsSlice (cs : List Char) (a b : Nat) : List Char := (cs.drop a).take (b - a)

/-- `str.match(/([+-])(\d{2})(\d{2})/)`: scan left to right for the first
sign character followed by four digits and return the signed offset in
minutes (`sign * (hh*60 + mm)`), as computed at `parseM3U.js:941-947`. -/
def tzScan : List Char → Option Int
  | [] => none
  | c :: rest =>
    if c = '+' ∨ c = '-' then
      match rest with
      | a :: b :: e :: f :: _ =>
        if a.isDigit && b.isDigit && e.isDigit && f.isDigit then
          some ((if c = '+' then 1 else -1) *
            ((10 * digitVal a + digitVal b) * 60 + (10 * digitVal e + digitVal f)))
        else tzScan rest
      | _ => tzScan rest
    else tzScan rest

/-! ## The Gregorian calendar arithmetic behind JS `Date.UTC`

`daysFromCivil` is the standard civil-calendar day-number computation
(proleptic Gregorian, epoch 1970-01-01); ECMAScript's `MakeDay` agrees
with it after normalizing the month into `[0, 11]`. -/

/-- Days from 1970-01-01 to the civil date `y-m-d` (month `1..12`; the
day may lie outside the month, contributing linearly, which is exactly
how `MakeDay` treats out-of-range day arguments). -/
def daysFromCivil (y m d : Int) : Int :=
  let yS := y - (if m ≤ 2 then 1 else 0)
  let era := yS / 400
  let yoe := yS - era * 400
  let mp := if 2 < m then m - 3 else m + 9
  let doy := (153 * mp + 2) / 5 + d - 1
  let doe := yoe * 365 + yoe / 4 - yoe / 100 + doy
  era * 146097 + doe - 719468

/-- ECMAScript `Date.UTC(y, m, d, h, mi, s)` before range clipping:
years `0..99` are interpreted as `1900..1999`, the month argument is
0-based and normalized by carrying into the year, and every other field
contributes linearly. -/
def jsDateUTC (y m d h mi s : Int) : Int :=
  let yq := if 0 ≤ y ∧ y ≤ 99 then y + 1900 else y
  let ym := yq + m / 12
  let mn := m % 12
  daysFromCivil ym (mn + 1) d * 86400000 + h * 3600000 + mi * 60000 + s * 1000

/-- ECMAScript `TimeClip`: time values beyond ±8.64e15 ms are `NaN`. -/
def timeClip (t : Int) : Option Int :=
  if t.natAbs ≤ 8640000000000000 then some t else none

/-! ## `parseTimeStr` (parseM3U.js:929-955) -/

/-- The inner `parseTimeStr` of `parseEpgXml`: parse
`YYYYMMDDHHMMSS[ ±HHMM]`.  The first 14 characters are sliced into six
`parseInt` fields, a signed 4-digit offset is searched anywhere in the
string, and the result is
`Date.UTC(fields) - offset·60000 + localOffset·60000` — note that the
source adds the caller's local timezone offset
(`new Date().getTimezoneOffset()`, line 952) into the stored instant.
`none` models an invalid `Date` (any field `NaN`). -/
def parseTimeStr (str : List Char) (localOffset : Int) : Option Int :=
  if str = [] then none else
  let digits := str.take 14
  match jsParseInt (jsSlice digits 0 4), jsParseInt (jsSlice digits 4 6),
        jsParseInt (jsSlice digits 6 8), jsParseInt (jsSlice digits 8 10),
        jsParseInt (jsSlice digits 10 12), jsParseInt (jsSlice digits 12 14) with
  | some year, some month0, some day, some hour, some minute, some second =>
    let timezoneOffset := (tzScan str).getD 0
    match timeClip (jsDateUTC year (month0 - 1) day hour minute second) with
    | some utcDate => timeClip (utcDate - timezoneOffset * 60000 + localOffset * 60000)
    | none => none
  | _, _, _, _, _, _ => none

/-! ## Data model of the parsed feed document and programme records -/

/-- An `<icon>` element: `src` attribute (absent = `none`) and text. -/
structure XmlIcon where
  src : Option String
  text : String
deriving Repr, DecidableEq

/-- A `<channel>` element: `id` attribute, the text of the first
`display-name` child if any, and the first `icon` child if any. -/
structure XmlChannel where
  id : String
  displayName : Option String
  icon : Option XmlIcon
deriving Repr, DecidableEq

/-- A `<programme>` element.  `start`/`stop` model
`getAttribute(..) || ''` (missing attribute = empty string); the other
children are the text of the first matching element, if present.
`ratingValue` is the text of the first `<value>` child of the first
`<rating>` child, if both exist. -/
structure XmlProgramme where
  channel : String
  start : String
  stop : String
  title : Option String
  subTitle : Option String
  episodeNum : Option String
  desc : Option String
  ratingValue : Option String
deriving Repr, DecidableEq

/-- A parsed feed document: its `channel` and `programme` elements in
document order.  Unparseable markup yields a document with both lists
empty. -/
structure XmlDoc where
  channels : List XmlChannel
  programmes : List XmlProgramme
deriving Repr, DecidableEq

/-- A programme record as pushed into the schedule maps
(parseM3U.js:1009-1019).  `endTime` embeds the source field `end`
(a Lean keyword). -/
structure Programme where
  title : String
  subtitle : String
  desc : String
  rating : String
  season : Option Int
  episodeNumber : Option Int
  start : Int
  endTime : Int
  icon : Option String
deriving Repr, DecidableEq

/-! ## Season/episode extraction (parseM3U.js:977-994)

`epText.match(/S?(\d+)[ .:-]?[Ee]?(\d+)/)` with the regex engine's
leftmost-match, greedy-with-backtracking semantics, then the fallback
split on non-digit runs. -/

def sepChar (c : Char) : Bool := c == ' ' || c == '.' || c == ':' || c == '-'

def eChar (c : Char) : Bool := c == 'E' || c == 'e'

/-- `(\d+)` at the current position (greedy, takes the whole run). -/
def numHere (cs : List Char) : Option Int :=
  let ds := cs.takeWhile Char.isDigit
  if ds.isEmpty then none else some (digitsValBase 10 digitVal ds)

/-- `[Ee]?(\d+)`: prefer consuming the `E`. -/
def afterEOpt (cs : List Char) : Option Int :=
  (match cs with
   | c :: r => if eChar c then numHere r else none
   | [] => none).orElse (fun _ => numHere cs)

/-- `[ .:-]?[Ee]?(\d+)`: prefer consuming the separator. -/
def afterSepOpt (cs : List Char) : Option Int :=
  (match cs with
   | c :: r => if sepChar c then afterEOpt r else none
   | [] => none).orElse (fun _ => afterEOpt cs)

/-- Attempt `(\d+)[ .:-]?[Ee]?(\d+)` at the current position.  The first
`\d+` is greedy: it first takes the whole digit run (the tail pattern
must then match beyond the run); on failure it backtracks one digit, so
the run's last digit becomes the second group (as in `"123"` ↦ `(12,3)`). -/
def epAttemptCore (cs : List Char) : Option (Int × Int) :=
  let run := cs.takeWhile Char.isDigit
  let rest := cs.dropWhile Char.isDigit
  if run.isEmpty then none
  else
    match afterSepOpt rest with
    | some g2 => some (digitsValBase 10 digitVal run, g2)
    | none =>
      if 2 ≤ run.length then
        some (digitsValBase 10 digitVal (run.take (run.length - 1)),
              digitsValBase 10 digitVal (run.drop (run.length - 1)))
      else none

/-- Leftmost match of `S?(\d+)[ .:-]?[Ee]?(\d+)` (the optional `S` is
case-sensitive in the source pattern). -/
def epScan : List Char → Option (Int × Int)
  | [] => none
  | c :: rest =>
    match (if c = 'S' then epAttemptCore rest else epAttemptCore (c :: rest)) with
    | some r => some r
    | none => epScan rest

/-- `split(/[^0-9]+/).filter(Boolean)`: the maximal digit runs. -/
def digitRunsAux : List Char → List Char → List (List Char)
  | [], acc => if acc.isEmpty then [] else [acc.reverse]
  | c :: rest, acc =>
    if c.isDigit then digitRunsAux rest (c :: acc)
    else if acc.isEmpty then digitRunsAux rest []
    else acc.reverse :: digitRunsAux rest []

def digitRuns (cs : List Char) : List (List Char) := digitRunsAux cs []

/-- Season/episode from a trimmed `<episode-num>` text: the regex match
if any, else the first two digit runs, else both `null`. -/
def parseEpisodeNum (epText : String) : Option Int × Option Int :=
  match epScan epText.data with
  | some (s, e) => (some s, some e)
  | none =>
    match digitRuns epText.data with
    | n1 :: n2 :: _ =>
      (some (digitsValBase 10 digitVal n1), some (digitsValBase 10 digitVal n2))
    | _ => (none, none)

/-! ## `parseEpgXml` (parseM3U.js:901-1043) -/

/-- The channel pass (lines 907-925): `channelIdToName` and
`channelIdToIcon`, last writer wins per `id`. -/
def channelMaps (cs : List XmlChannel) :
    List (String × String) × List (String × Option String) :=
  cs.foldl
    (fun maps c =>
      let displayName := match c.displayName with | some t => jsTrim t | none => c.id
      let iconSrc : Option String :=
        match c.icon with
        | some ic =>
          match ic.src with
          | some s =>
            if s ≠ "" then some s
            else if ic.text ≠ "" then some (jsTrim ic.text) else none
          | none => if ic.text ≠ "" then some (jsTrim ic.text) else none
        | none => none
      (setKey maps.1 c.id displayName, setKey maps.2 c.id iconSrc))
    ([], [])

/-- `channelIdToName[channelId] || channelId` (line 965). -/
def resolveDisplayName (idToName : List (String × String)) (channelId : String) : String :=
  match lookupKey idToName channelId with
  | some s => if s = "" then channelId else s
  | none => channelId

/-- Build the record pushed at lines 1009-1019 from one programme
element and its two successfully parsed instants. -/
def buildRecord (idToIcon : List (String × Option String))
    (p : XmlProgramme) (start endTime : Int) : Programme :=
  let se := match p.episodeNum with | some t => parseEpisodeNum (jsTrim t) | none => (none, none)
  { title := match p.title with | some t => jsTrim t | none => ""
    subtitle := match p.subTitle with | some t => jsTrim t | none => ""
    desc := match p.desc with | some t => jsTrim t | none => ""
    rating := match p.ratingValue with | some t => jsTrim t | none => ""
    season := se.1
    episodeNumber := se.2
    start := start
    endTime := endTime
    icon := match lookupKey idToIcon p.channel with
      | some (some s) => if s = "" then none else some s
      | _ => none }

/-- `schedule[key].push(r)`, creating the bucket when absent. -/
def pushKey (m : List (String × List Programme)) (k : String) (p : Programme) :
    List (String × List Programme) :=
  match lookupKey m k with
  | some l => setKey m k (l ++ [p])
  | none => m ++ [(k, [p])]

/-- One iteration of the programme loop (lines 957-1033): skip the
entry when either timestamp fails to parse, else push the record into
both `schedule[displayName]` and `scheduleByTvgId[channelId]`. -/
def insertStep (idToName : List (String × String)) (idToIcon : List (String × Option String))
    (localOffset : Int)
    (acc : List (String × List Programme) × List (String × List Programme))
    (p : XmlProgramme) :
    List (String × List Programme) × List (String × List Programme) :=
  match parseTimeStr p.start.data localOffset, parseTimeStr p.stop.data localOffset with
  | some start, some stop =>
    (pushKey acc.1 (resolveDisplayName idToName p.channel) (buildRecord idToIcon p start stop),
     pushKey acc.2 p.channel (buildRecord idToIcon p start stop))
  | _, _ => acc

/-- The programme pass: fold `insertStep` over the programme elements. -/
def insertProgrammes (doc : XmlDoc) (localOffset : Int) :
    List (String × List Programme) × List (String × List Programme) :=
  doc.programmes.foldl
    (insertStep (channelMaps doc.channels).1 (channelMaps doc.channels).2 localOffset) ([], [])

/-- Stable insertion into a start-sorted list: a new record goes after
every record with an equal or earlier start. -/
def insertByStart (p : Programme) : List Programme → List Programme
  | [] => [p]
  | q :: l => if p.start < q.start then p :: q :: l else q :: insertByStart p l

/-- `list.sort((a, b) => a.start - b.start)`: ascending by `start`,
stable (ES2019 `Array.prototype.sort` is stable; a stable sort's output
is unique, so insertion sort reproduces it). -/
def sortByStart (l : List Programme) : List Programme :=
  l.foldl (fun acc p => insertByStart p acc) []

/-- `parseEpgXml` (lines 901-1043): both maps with every bucket sorted
ascending by start.  The `DOMParser` front end is modelled by the
`XmlDoc` argument; `localOffset` is the caller's timezone offset used by
the inner `parseTimeStr`. -/
def parseEpgXml (doc : XmlDoc) (localOffset : Int) :
    List (String × List Programme) × List (String × List Programme) :=
  let m := insertProgrammes doc localOffset
  (m.1.map (fun kv => (kv.1, sortByStart kv.2)),
   m.2.map (fun kv => (kv.1, sortByStart kv.2)))

/-! ## `loadEpg` state (parseM3U.js:1050-1080) and the slot matcher -/

/-- `epgScheduleNormalized` (lines 1063-1066): for each key of
`epgSchedule` in insertion order, `normalized[key.toLowerCase()] = bucket`
(later keys overwrite earlier ones that collide after lowercasing). -/
def normalizeIndex (schedule : List (String × List Programme)) :
    List (String × List Programme) :=
  schedule.foldl (fun acc kv => setKey acc (jsToLowerCase kv.1) kv.2) []

/-- The three module-level schedule maps after a successful `loadEpg`. -/
structure EpgState where
  epgSchedule : List (String × List Programme)
  epgScheduleNormalized : List (String × List Programme)
  epgScheduleByTvgId : List (String × List Programme)
deriving Repr, DecidableEq

/-- The state `loadEpg` installs after parsing a feed document. -/
def loadEpgState (doc : XmlDoc) (localOffset : Int) : EpgState :=
  let parsed := parseEpgXml doc localOffset
  { epgSchedule := parsed.1
    epgScheduleNormalized := normalizeIndex parsed.1
    epgScheduleByTvgId := parsed.2 }

/-- A channel object as consumed by `findProgrammeForSlot`: `tvgId` may
be absent (`none` models both a missing property and JS `null`). -/
structure Channel where
  name : String
  tvgId : Option String
deriving Repr, DecidableEq

/-- JS truthiness of `channel.tvgId`: present and nonempty. -/
def tvgIdTruthy : Option String → Bool
  | none => false
  | some s => s ≠ ""

/-- Candidate-list selection of `findProgrammeForSlot`
(parseM3U.js:1177-1186): the tvg-id bucket when `channel.tvgId` is
truthy and the key exists, else
`epgScheduleNormalized[name.toLowerCase()] || epgSchedule[name] || []`.
(For the string-valued names modelled here the
`channel.name && channel.name.toLowerCase` guard always takes the
lowercasing branch; lowercasing the empty string is itself.) -/
def selectList (st : EpgState) (channel : Channel) : List Programme :=
  if tvgIdTruthy channel.tvgId ∧
      (lookupKey st.epgScheduleByTvgId (channel.tvgId.getD "")).isSome then
    (lookupKey st.epgScheduleByTvgId (channel.tvgId.getD "")).getD []
  else
    match lookupKey st.epgScheduleNormalized (jsToLowerCase channel.name) with
    | some l => l
    | none =>
      match lookupKey st.epgSchedule channel.name with
      | some l => l
      | none => []

/-- The scan loop (lines 1188-1193): first record with
`prog.start < slotEnd && prog.end > slotStart`. -/
def findProgInList (slotStart slotEnd : Int) : List Programme → Option Programme
  | [] => none
  | p :: l =>
    if p.start < slotEnd ∧ slotStart < p.endTime then some p
    else findProgInList slotStart slotEnd l

/-- `findProgrammeForSlot(channel, slotStart, slotEnd)` (lines 1176-1194). -/
def findProgrammeForSlot (st : EpgState) (channel : Channel)
    (slotStart slotEnd : Int) : Option Programme :=
  findProgInList slotStart slotEnd (selectList st channel)

/-- The per-channel presence test of `updateInfoDisplay`
(parseM3U.js:1311): `epgSchedule[channel.name] && epgSchedule[channel.name].length > 0`. -/
def channelHasEpgEntries (st : EpgState) (channel : Channel) : Bool :=
  match lookupKey st.epgSchedule channel.name with
  | some l => decide (0 < l.length)
  | none => false

/-! ## The scroll handlers (parseM3U.js:1767-1800) -/

/-- Window start plus outcome of one navigation click. -/
structure ShiftResult where
  timeWindowStart : Int
  committed : Bool
  message : String
deriving Repr, DecidableEq

/-- The `scrollBackBtn` click handler (lines 1767-1783): propose
`start - 12h`; reject (state unchanged) when the proposal is earlier
than `now - 7 days`, else commit. -/
def scrollBackClick (timeWindowStart now : Int) : ShiftResult :=
  let oneWeekAgo := now - 7 * 24 * 60 * 60 * 1000
  let newTime := timeWindowStart - 12 * 60 * 60 * 1000
  if newTime < oneWeekAgo then
    { timeWindowStart := timeWindowStart, committed := false
      message := "Cannot go back more than 1 week" }
  else
    { timeWindowStart := newTime, committed := true, message := "Scrolled -12 hours" }

/-- The `scrollForwardBtn` click handler (lines 1784-1800): propose
`start + 12h`; reject when the proposal is later than `now + 7 days`,
else commit. -/
def scrollForwardClick (timeWindowStart now : Int) : ShiftResult :=
  let oneWeekForward := now + 7 * 24 * 60 * 60 * 1000
  let newTime := timeWindowStart + 12 * 60 * 60 * 1000
  if oneWeekForward < newTime then
    { timeWindowStart := timeWindowStart, committed := false
      message := "Cannot go forward more than 1 week" }
  else
    { timeWindowStart := newTime, committed := true, message := "Scrolled +12 hours" }

/-! ## Specification-side vocabulary

The definitions below come from the specification's words, not from the
source: the pure naive-UTC encoding of calendar fields (used to state
the claims about timestamp decoding), the inverse calendar
decomposition (used to state the wall-clock round-trip), calendar-field
validity, and a canonical `YYYYMMDDHHMMSS[ ±HHMM]` formatter that
enumerates the timestamp strings the claims quantify over. -/

/-- Proleptic-Gregorian leap year. -/
def isLeap (y : Int) : Bool :=
  decide (y % 4 = 0 ∧ (y % 100 ≠ 0 ∨ y % 400 = 0))

/-- Length of month `m` (1..12) of year `y`. -/
def daysInMonth (y m : Int) : Int :=
  if m = 2 then (if isLeap y then 29 else 28)
  else if m = 4 ∨ m = 6 ∨ m = 9 ∨ m = 11 then 30 else 31

/-- The naive UTC instant of calendar fields taken at face value
(1-based month, no year remapping): what §4.1 step 3 of the spec means
by "interpreting the naive calendar fields". -/
def specNaiveUTC (y m d h mi s : Int) : Int :=
  daysFromCivil y m d * 86400000 + h * 3600000 + mi * 60000 + s * 1000

/-- Inverse of `daysFromCivil`: the civil date `(y, m, d)` containing
day number `z` (days since 1970-01-01). -/
def civilFromDays (z : Int) : Int × Int × Int :=
  let z' := z + 719468
  let era := z' / 146097
  let doe := z' - era * 146097
  let yoe := (doe - doe / 1460 + doe / 36524 - doe / 146096) / 365
  let y := yoe + era * 400
  let doy := doe - (365 * yoe + yoe / 4 - yoe / 100)
  let mp := (5 * doy + 2) / 153
  let d := doy - (153 * mp + 2) / 5 + 1
  let m := mp + (if mp < 10 then 3 else -9)
  (if m ≤ 2 then y + 1 else y, m, d)

/-- The six wall-clock fields of an absolute instant (UTC). -/
structure WallClock where
  year : Int
  month : Int
  day : Int
  hour : Int
  minute : Int
  second : Int
deriving Repr, DecidableEq

/-- Wall-clock fields of an instant `t` (ms since epoch), UTC. -/
def fieldsAt (t : Int) : WallClock :=
  let days := t / 86400000
  let tod := t % 86400000
  let c := civilFromDays days
  { year := c.1, month := c.2.1, day := c.2.2
    hour := tod / 3600000, minute := tod % 3600000 / 60000
    second := tod % 60000 / 1000 }

/-- Wall-clock fields of instant `t` re-expressed in a fixed offset of
`off` minutes east of UTC. -/
def fieldsAtOffset (t off : Int) : WallClock := fieldsAt (t + off * 60000)

/-- Two-digit zero-padded decimal rendering (for `n ≤ 99`). -/
def pad2 (n : Nat) : List Char := [digitChar (n / 10), digitChar (n % 10)]

/-- Four-digit zero-padded decimal rendering (for `n ≤ 9999`). -/
def pad4 (n : Nat) : List Char :=
  [digitChar (n / 1000), digitChar (n / 100 % 10), digitChar (n / 10 % 10), digitChar (n % 10)]

/-- A canonical feed timestamp `YYYYMMDDHHMMSS[ ±HHMM]`: the string
shape named by §4.1 step 2 / §6 of the spec.  `off = some (pos, oh, om)`
appends an explicit signed offset. -/
def mkTimeStr (y mo d h mi s : Nat) (off : Option (Bool × Nat × Nat)) : List Char :=
  pad4 y ++ pad2 mo ++ pad2 d ++ pad2 h ++ pad2 mi ++ pad2 s ++
    (match off with
     | none => []
     | some (pos, oh, om) => ' ' :: (if pos then '+' else '-') :: (pad2 oh ++ pad2 om))

/-- Offset in minutes denoted by the optional offset component. -/
def tzMinutes : Option (Bool × Nat × Nat) → Int
  | none => 0
  | some (pos, oh, om) => (if pos then 1 else -1) * ((oh : Int) * 60 + (om : Int))

/-- A bucket sorted ascending by `start` (the Schedule Index invariant
of §3 of the spec). -/
def SortedByStart (l : List Programme) : Prop :=
  List.Pairwise (fun a b => a.start ≤ b.start) l

/-- Half-open interval overlap (§4.2): `start < slotEnd ∧ end > slotStart`. -/
def overlaps (p : Programme) (slotStart slotEnd : Int) : Prop :=
  p.start < slotEnd ∧ slotStart < p.endTime

instance (p : Programme) (a b : Int) : Decidable (overlaps p a b) := by
  unfold overlaps; infer_instance

instance (l : List Programme) : Decidable (SortedByStart l) := by
  unfold SortedByStart; infer_instance

/-! ## Candidate selection as worded by the specification (claim C4)

Two spec-side renderings of §4.2's lookup order, literally "first tier
that yields a non-empty candidate list wins".  `claimCandidates` uses
the claim's own tier-1 guard ("stableId is non-null"); the amended
variant uses the source's guard (non-null **and** non-empty, i.e. JS
truthiness). -/

def claimCandidates (st : EpgState) (channel : Channel) : List Programme :=
  let l1 := if channel.tvgId.isSome then
    (lookupKey st.epgScheduleByTvgId (channel.tvgId.getD "")).getD [] else []
  let l2 := (lookupKey st.epgScheduleNormalized (jsToLowerCase channel.name)).getD []
  let l3 := (lookupKey st.epgScheduleNormalized channel.name).getD []
  if l1 ≠ [] then l1 else if l2 ≠ [] then l2 else if l3 ≠ [] then l3 else []

def amendedCandidates (st : EpgState) (channel : Channel) : List Programme :=
  let l1 := if tvgIdTruthy channel.tvgId then
    (lookupKey st.epgScheduleByTvgId (channel.tvgId.getD "")).getD [] else []
  let l2 := (lookupKey st.epgScheduleNormalized (jsToLowerCase channel.name)).getD []
  let l3 := (lookupKey st.epgScheduleNormalized channel.name).getD []
  if l1 ≠ [] then l1 else if l2 ≠ [] then l2 else if l3 ≠ [] then l3 else []

/-- All bucket values of an index are non-empty (holds for every index
the parser builds, since buckets are created by pushing). -/
def AllBucketsNonEmpty (m : List (String × List Programme)) : Prop :=
  ∀ kv ∈ m, kv.2 ≠ ([] : List Programme)

/-! ## Concrete feed documents used in the analysis -/

/-- A feed whose single programme has its stop before its start (both
timestamps parse). -/
def feedInverted : XmlDoc :=
  { channels := [{ id := "c", displayName := some "A", icon := none }]
    programmes := [{ channel := "c", start := "20240101190000", stop := "20240101180000",
                     title := some "Bad", subTitle := none, episodeNum := none,
                     desc := none, ratingValue := none }] }

/-- A feed with two channel definitions whose display names differ only
in case, one programme each. -/
def feedCase : XmlDoc :=
  { channels := [{ id := "c1", displayName := some "Alpha", icon := none },
                 { id := "c2", displayName := some "alpha", icon := none }]
    programmes := [{ channel := "c1", start := "20240101180000", stop := "20240101190000",
                     title := some "P1", subTitle := none, episodeNum := none,
                     desc := none, ratingValue := none },
                   { channel := "c2", start := "20240101200000", stop := "20240101210000",
                     title := some "P2", subTitle := none, episodeNum := none,
                     desc := none, ratingValue := none }] }

/-- A feed keyed by channel identifier `"5"` with display name `"Bar"`. -/
def feedTvg : XmlDoc :=
  { channels := [{ id := "5", displayName := some "Bar", icon := none }]
    programmes := [{ channel := "5", start := "20240101180000", stop := "20240101190000",
                     title := some "News", subTitle := none, episodeNum := none,
                     desc := none, ratingValue := none }] }

/-- A feed producing both an empty-string feed-identifier bucket and a
display-name bucket. -/
def feedEmptyId : XmlDoc :=
  { channels := [{ id := "cid", displayName := some "x", icon := none }]
    programmes := [{ channel := "", start := "20240101180000", stop := "20240101190000",
                     title := some "E", subTitle := none, episodeNum := none,
                     desc := none, ratingValue := none },
                   { channel := "cid", start := "20240101200000", stop := "20240101210000",
                     title := some "X", subTitle := none, episodeNum := none,
                     desc := none, ratingValue := none }] }

/-! ## Calendar round-trip: `civilFromDays` inverts `daysFromCivil`

The chain follows the standard correctness argument for the civil
calendar algorithms: recover the era, the year of era, the day of year,
the shifted month, and the day, in that order. -/

set_option maxHeartbeats 8000000 in
/-- Year-of-era recovery: the closed-form expression inside
`civilFromDays` returns `yoe` on every day of that year. -/
theorem yoe_recover (yoe doe : Int) (h0 : 0 ≤ yoe) (h1 : yoe ≤ 399)
    (hl : 365 * yoe + yoe / 4 - yoe / 100 ≤ doe)
    (hu : doe < 365 * (yoe + 1) + (yoe + 1) / 4 - (yoe + 1) / 100 + (yoe + 1) / 400) :
    (doe - doe / 1460 + doe / 36524 - doe / 146096) / 365 = yoe := by
  interval_cases yoe <;> omega

/-- Shifted-month recovery from the day of year. -/
theorem mp_recover (mp d : Int) (hm0 : 0 ≤ mp) (hm1 : mp ≤ 11) (hd1 : 1 ≤ d)
    (hdm : mp ≤ 10 → d ≤ (153 * (mp + 1) + 2) / 5 - (153 * mp + 2) / 5)
    (hfeb : mp = 11 → d ≤ 29) :
    (5 * ((153 * mp + 2) / 5 + d - 1) + 2) / 153 = mp := by
  have hdm2 : d ≤ (if mp = 11 then 29 else (153 * (mp + 1) + 2) / 5 - (153 * mp + 2) / 5) := by
    split_ifs with h
    · exact hfeb h
    · exact hdm (by omega)
  clear hdm hfeb
  interval_cases mp <;> norm_num at hdm2 <;> omega

/-- The leap-day allowance of February is bounded by the year-length
increment of the year of era containing it. -/
theorem leap_le_delta (y era yoe : Int) (hy : y = era * 400 + yoe + 1)
    (h0 : 0 ≤ yoe) (h1 : yoe ≤ 399) :
    (if isLeap y then (29:Int) else 28) ≤
      28 + ((yoe + 1) / 4 - yoe / 4) - ((yoe + 1) / 100 - yoe / 100)
        + ((yoe + 1) / 400 - yoe / 400) := by
  unfold isLeap
  split_ifs with h
  · rw [decide_eq_true_eq] at h
    omega
  · omega

/-- Stepwise evaluation of `civilFromDays` given the recovered
components. -/
theorem civilFromDays_steps (z era doe yoe doy mp d : Int)
    (he1 : z + 719468 = era * 146097 + doe)
    (he2 : 0 ≤ doe) (he3 : doe < 146097)
    (hy : (doe - doe / 1460 + doe / 36524 - doe / 146096) / 365 = yoe)
    (hdoy : doe - (365 * yoe + yoe / 4 - yoe / 100) = doy)
    (hmp : (5 * doy + 2) / 153 = mp)
    (hd : doy - (153 * mp + 2) / 5 + 1 = d)
    (h0 : 0 ≤ mp) (h1 : mp ≤ 11) :
    civilFromDays z =
      ((if mp < 10 then yoe + era * 400 else yoe + era * 400 + 1),
       (if mp < 10 then mp + 3 else mp - 9), d) := by
  have hera : (z + 719468) / 146097 = era := by omega
  have hdoe : z + 719468 - (z + 719468) / 146097 * 146097 = doe := by omega
  simp only [civilFromDays]
  rw [hdoe, hy, hdoy, hmp, hd, hera]
  by_cases hlt : mp < 10
  · simp only [if_pos hlt]
    rw [if_neg (by omega)]
  · simp only [if_neg hlt]
    rw [if_pos (by omega)]
    simp only [Prod.mk.injEq]
    exact ⟨trivial, by omega, trivial⟩

/-- Round trip on the era/year-of-era/shifted-month decomposition. -/
theorem civilFromDays_daysFromCivil_core (z era yoe mp d : Int)
    (h0 : 0 ≤ yoe) (h1 : yoe ≤ 399) (hm0 : 0 ≤ mp) (hm1 : mp ≤ 11) (hd1 : 1 ≤ d)
    (hdm : mp ≤ 10 → d ≤ (153 * (mp + 1) + 2) / 5 - (153 * mp + 2) / 5)
    (hfeb : mp = 11 → d ≤ 28 + ((yoe + 1) / 4 - yoe / 4) - ((yoe + 1) / 100 - yoe / 100)
      + ((yoe + 1) / 400 - yoe / 400))
    (hz : z = era * 146097 + (yoe * 365 + yoe / 4 - yoe / 100 + ((153 * mp + 2) / 5 + d - 1))
      - 719468) :
    civilFromDays z =
      ((if mp < 10 then yoe + era * 400 else yoe + era * 400 + 1),
       (if mp < 10 then mp + 3 else mp - 9), d) := by
  have hdoyUB : (153 * mp + 2) / 5 + d - 1 <
      365 + ((yoe + 1) / 4 - yoe / 4) - ((yoe + 1) / 100 - yoe / 100)
        + ((yoe + 1) / 400 - yoe / 400) := by
    rcases (by omega : mp ≤ 10 ∨ mp = 11) with h | h
    · have h2 := hdm h
      clear hdm hfeb
      omega
    · have h2 := hfeb h
      clear hdm hfeb
      omega
  have hfl : 365 * yoe + yoe / 4 - yoe / 100 ≤
      yoe * 365 + yoe / 4 - yoe / 100 + ((153 * mp + 2) / 5 + d - 1) := by
    clear hdm hfeb
    omega
  have hfu : yoe * 365 + yoe / 4 - yoe / 100 + ((153 * mp + 2) / 5 + d - 1) <
      365 * (yoe + 1) + (yoe + 1) / 4 - (yoe + 1) / 100 + (yoe + 1) / 400 := by
    clear hdm hfeb hz
    omega
  have he1 : z + 719468 = era * 146097 +
      (yoe * 365 + yoe / 4 - yoe / 100 + ((153 * mp + 2) / 5 + d - 1)) := by
    clear hdm hfeb
    omega
  have he2 : 0 ≤ yoe * 365 + yoe / 4 - yoe / 100 + ((153 * mp + 2) / 5 + d - 1) := by
    clear hdm hfeb hz
    omega
  have he3 : yoe * 365 + yoe / 4 - yoe / 100 + ((153 * mp + 2) / 5 + d - 1) < 146097 := by
    clear hdm hfeb hz
    omega
  have hdoy : yoe * 365 + yoe / 4 - yoe / 100 + ((153 * mp + 2) / 5 + d - 1)
      - (365 * yoe + yoe / 4 - yoe / 100) = (153 * mp + 2) / 5 + d - 1 := by
    clear hdm hfeb hz
    omega
  have hdR : (153 * mp + 2) / 5 + d - 1 - (153 * mp + 2) / 5 + 1 = d := by
    clear hdm hfeb hz
    omega
  have hmpR := mp_recover mp d hm0 hm1 hd1 hdm
    (fun h => by have h2 := hfeb h; clear hdm hfeb hz; omega)
  have hyR := yoe_recover yoe
    (yoe * 365 + yoe / 4 - yoe / 100 + ((153 * mp + 2) / 5 + d - 1)) h0 h1 hfl hfu
  exact civilFromDays_steps z era
    (yoe * 365 + yoe / 4 - yoe / 100 + ((153 * mp + 2) / 5 + d - 1)) yoe
    ((153 * mp + 2) / 5 + d - 1) mp d he1 he2 he3 hyR hdoy hmpR hdR hm0 hm1

set_option maxHeartbeats 2000000 in
/-- Decoding inverts encoding on every valid civil date. -/
theorem civilFromDays_daysFromCivil (y m d : Int) (hm1 : 1 ≤ m) (hm2 : m ≤ 12)
    (hd1 : 1 ≤ d) (hd2 : d ≤ daysInMonth y m) :
    civilFromDays (daysFromCivil y m d) = (y, m, d) := by
  interval_cases m
  · -- January: mp = 10 in the March-based calendar of the shifted year y - 1
    have hdm31 : d ≤ 31 := by simpa [daysInMonth] using hd2
    have hcore := civilFromDays_daysFromCivil_core (daysFromCivil y 1 d)
        ((y - 1) / 400) ((y - 1) - (y - 1) / 400 * 400) 10 d (by omega) (by omega)
        (by norm_num) (by norm_num) hd1 (fun _ => by omega) (fun h => by norm_num at h)
        (by simp only [daysFromCivil]; norm_num)
    rw [hcore, if_neg (by norm_num : ¬ (10:Int) < 10), if_neg (by norm_num : ¬ (10:Int) < 10)]
    norm_num
  · -- February: mp = 11; the day bound couples to the leap structure of the era
    have hld := leap_le_delta y ((y - 1) / 400) ((y - 1) - (y - 1) / 400 * 400)
        (by omega) (by omega) (by omega)
    have hdm2 : d ≤ (if isLeap y then (29:Int) else 28) := by simpa [daysInMonth] using hd2
    have hcore := civilFromDays_daysFromCivil_core (daysFromCivil y 2 d)
        ((y - 1) / 400) ((y - 1) - (y - 1) / 400 * 400) 11 d (by omega) (by omega)
        (by norm_num) (by norm_num) hd1 (fun h => by norm_num at h)
        (fun _ => le_trans hdm2 hld)
        (by simp only [daysFromCivil]; norm_num)
    rw [hcore, if_neg (by norm_num : ¬ (11:Int) < 10), if_neg (by norm_num : ¬ (11:Int) < 10)]
    norm_num
  · -- month 3: mp = 0
    have hdmB : d ≤ 31 := by simpa [daysInMonth] using hd2
    have hcore := civilFromDays_daysFromCivil_core (daysFromCivil y 3 d)
        (y / 400) (y - y / 400 * 400) 0 d (by omega) (by omega)
        (by norm_num) (by norm_num) hd1 (fun _ => by omega) (fun h => by norm_num at h)
        (by simp only [daysFromCivil]; norm_num)
    rw [hcore, if_pos (by norm_num : (0:Int) < 10), if_pos (by norm_num : (0:Int) < 10)]
    norm_num
  · -- month 4: mp = 1
    have hdmB : d ≤ 30 := by simpa [daysInMonth] using hd2
    have hcore := civilFromDays_daysFromCivil_core (daysFromCivil y 4 d)
        (y / 400) (y - y / 400 * 400) 1 d (by omega) (by omega)
        (by norm_num) (by norm_num) hd1 (fun _ => by omega) (fun h => by norm_num at h)
        (by simp only [daysFromCivil]; norm_num)
    rw [hcore, if_pos (by norm_num : (1:Int) < 10), if_pos (by norm_num : (1:Int) < 10)]
    norm_num
  · -- month 5: mp = 2
    have hdmB : d ≤ 31 := by simpa [daysInMonth] using hd2
    have hcore := civilFromDays_daysFromCivil_core (daysFromCivil y 5 d)
        (y / 400) (y - y / 400 * 400) 2 d (by omega) (by omega)
        (by norm_num) (by norm_num) hd1 (fun _ => by omega) (fun h => by norm_num at h)
        (by simp only [daysFromCivil]; norm_num)
    rw [hcore, if_pos (by norm_num : (2:Int) < 10), if_pos (by norm_num : (2:Int) < 10)]
    norm_num
  · -- month 6: mp = 3
    have hdmB : d ≤ 30 := by simpa [daysInMonth] using hd2
    have hcore := civilFromDays_daysFromCivil_core (daysFromCivil y 6 d)
        (y / 400) (y - y / 400 * 400) 3 d (by omega) (by omega)
        (by norm_num) (by norm_num) hd1 (fun _ => by omega) (fun h => by norm_num at h)
        (by simp only [daysFromCivil]; norm_num)
    rw [hcore, if_pos (by norm_num : (3:Int) < 10), if_pos (by norm_num : (3:Int) < 10)]
    norm_num
  · -- month 7: mp = 4
    have hdmB : d ≤ 31 := by simpa [daysInMonth] using hd2
    have hcore := civilFromDays_daysFromCivil_core (daysFromCivil y 7 d)
        (y / 400) (y - y / 400 * 400) 4 d (by omega) (by omega)
        (by norm_num) (by norm_num) hd1 (fun _ => by omega) (fun h => by norm_num at h)
        (by simp only [daysFromCivil]; norm_num)
    rw [hcore, if_pos (by norm_num : (4:Int) < 10), if_pos (by norm_num : (4:Int) < 10)]
    norm_num
  · -- month 8: mp = 5
    have hdmB : d ≤ 31 := by simpa [daysInMonth] using hd2
    have hcore := civilFromDays_daysFromCivil_core (daysFromCivil y 8 d)
        (y / 400) (y - y / 400 * 400) 5 d (by omega) (by omega)
        (by norm_num) (by norm_num) hd1 (fun _ => by omega) (fun h => by norm_num at h)
        (by simp only [daysFromCivil]; norm_num)
    rw [hcore, if_pos (by norm_num : (5:Int) < 10), if_pos (by norm_num : (5:Int) < 10)]
    norm_num
  · -- month 9: mp = 6
    have hdmB : d ≤ 30 := by simpa [daysInMonth] using hd2
    have hcore := civilFromDays_daysFromCivil_core (daysFromCivil y 9 d)
        (y / 400) (y - y / 400 * 400) 6 d (by omega) (by omega)
        (by norm_num) (by norm_num) hd1 (fun _ => by omega) (fun h => by norm_num at h)
        (by simp only [daysFromCivil]; norm_num)
    rw [hcore, if_pos (by norm_num : (6:Int) < 10), if_pos (by norm_num : (6:Int) < 10)]
    norm_num
  · -- month 10: mp = 7
    have hdmB : d ≤ 31 := by simpa [daysInMonth] using hd2
    have hcore := civilFromDays_daysFromCivil_core (daysFromCivil y 10 d)
        (y / 400) (y - y / 400 * 400) 7 d (by omega) (by omega)
        (by norm_num) (by norm_num) hd1 (fun _ => by omega) (fun h => by norm_num at h)
        (by simp only [daysFromCivil]; norm_num)
    rw [hcore, if_pos (by norm_num : (7:Int) < 10), if_pos (by norm_num : (7:Int) < 10)]
    norm_num
  · -- month 11: mp = 8
    have hdmB : d ≤ 30 := by simpa [daysInMonth] using hd2
    have hcore := civilFromDays_daysFromCivil_core (daysFromCivil y 11 d)
        (y / 400) (y - y / 400 * 400) 8 d (by omega) (by omega)
        (by norm_num) (by norm_num) hd1 (fun _ => by omega) (fun h => by norm_num at h)
        (by simp only [daysFromCivil]; norm_num)
    rw [hcore, if_pos (by norm_num : (8:Int) < 10), if_pos (by norm_num : (8:Int) < 10)]
    norm_num
  · -- month 12: mp = 9
    have hdmB : d ≤ 31 := by simpa [daysInMonth] using hd2
    have hcore := civilFromDays_daysFromCivil_core (daysFromCivil y 12 d)
        (y / 400) (y - y / 400 * 400) 9 d (by omega) (by omega)
        (by norm_num) (by norm_num) hd1 (fun _ => by omega) (fun h => by norm_num at h)
        (by simp only [daysFromCivil]; norm_num)
    rw [hcore, if_pos (by norm_num : (9:Int) < 10), if_pos (by norm_num : (9:Int) < 10)]
    norm_num

/-! ## Character and `parseInt` lemmas -/

theorem digitChar_isDigit (n : Nat) (h : n ≤ 9) : (digitChar n).isDigit = true := by
  interval_cases n <;> decide

theorem digitChar_not_space (n : Nat) (h : n ≤ 9) : isJsSpace (digitChar n) = false := by
  interval_cases n <;> decide

theorem digitVal_digitChar (n : Nat) (h : n ≤ 9) : digitVal (digitChar n) = (n : Int) := by
  interval_cases n <;> decide

theorem char_isDigit_ne (c d : Char) (h : c.isDigit = true) (hd : d.isDigit = false) :
    c ≠ d := by
  intro he
  subst he
  rw [h] at hd
  cases hd

theorem isJsSpace_of_isDigit (c : Char) (h : c.isDigit = true) : isJsSpace c = false := by
  cases hsp : isJsSpace c
  · rfl
  · exfalso
    simp only [isJsSpace, Bool.or_eq_true, beq_iff_eq] at hsp
    have hc : c = ' ' ∨ c = '\t' ∨ c = '\n' ∨ c = '\r' ∨ c = '\x0b' ∨ c = '\x0c' := by
      tauto
    rcases hc with h' | h' | h' | h' | h' | h' <;> subst h' <;> exact absurd h (by decide)

theorem jsParseIntCore_digits (ds : List Char) (h : ∀ c ∈ ds, c.isDigit = true)
    (hne : ds ≠ []) : jsParseIntCore ds = some (digitsValBase 10 digitVal ds) := by
  match ds with
  | [] => exact absurd rfl hne
  | [a] =>
    have ha := h a (by simp)
    simp [jsParseIntCore, List.takeWhile, ha]
  | a :: b :: tl =>
    have ha := h a (by simp)
    have hb := h b (by simp)
    have hbx : b ≠ 'x' := char_isDigit_ne b 'x' hb (by decide)
    have hbX : b ≠ 'X' := char_isDigit_ne b 'X' hb (by decide)
    have htw : (a :: b :: tl).takeWhile Char.isDigit = a :: b :: tl := by
      exact List.takeWhile_eq_self_iff.mpr h
    simp [jsParseIntCore, hbx, hbX, htw]

theorem jsParseInt_digits (ds : List Char) (h : ∀ c ∈ ds, c.isDigit = true)
    (hne : ds ≠ []) : jsParseInt (ds) = some (digitsValBase 10 digitVal ds) := by
  match ds with
  | [] => exact absurd rfl hne
  | a :: tl =>
    have ha := h a (by simp)
    have hsp : isJsSpace a = false := isJsSpace_of_isDigit a ha
    have hap : a ≠ '+' := char_isDigit_ne a '+' ha (by decide)
    have ham : a ≠ '-' := char_isDigit_ne a '-' ha (by decide)
    simp only [jsParseInt, List.dropWhile_cons, hsp, Bool.false_eq_true, if_false]
    rw [if_neg hap, if_neg ham]
    exact jsParseIntCore_digits (a :: tl) h hne

theorem pad2_digits (n : Nat) (h : n ≤ 99) : ∀ c ∈ pad2 n, c.isDigit = true := by
  intro c hc
  simp only [pad2, List.mem_cons, List.not_mem_nil, or_false] at hc
  rcases hc with h' | h' <;> subst h' <;> exact digitChar_isDigit _ (by omega)

theorem pad4_digits (n : Nat) (h : n ≤ 9999) : ∀ c ∈ pad4 n, c.isDigit = true := by
  intro c hc
  simp only [pad4, List.mem_cons, List.not_mem_nil, or_false] at hc
  rcases hc with h' | h' | h' | h' <;> subst h' <;> exact digitChar_isDigit _ (by omega)

theorem jsParseInt_pad2 (n : Nat) (h : n ≤ 99) : jsParseInt (pad2 n) = some (n : Int) := by
  rw [jsParseInt_digits (pad2 n) (pad2_digits n h) (by simp [pad2])]
  simp only [pad2, digitsValBase, List.foldl,
    digitVal_digitChar _ (show n / 10 ≤ 9 by omega),
    digitVal_digitChar _ (show n % 10 ≤ 9 by omega)]
  congr 1
  omega

theorem jsParseInt_pad4 (n : Nat) (h : n ≤ 9999) : jsParseInt (pad4 n) = some (n : Int) := by
  rw [jsParseInt_digits (pad4 n) (pad4_digits n h) (by simp [pad4])]
  simp only [pad4, digitsValBase, List.foldl,
    digitVal_digitChar _ (show n / 1000 ≤ 9 by omega),
    digitVal_digitChar _ (show n / 100 % 10 ≤ 9 by omega),
    digitVal_digitChar _ (show n / 10 % 10 ≤ 9 by omega),
    digitVal_digitChar _ (show n % 10 ≤ 9 by omega)]
  congr 1
  omega

theorem digits14_digits (y mo d h mi s : Nat) (hy : y ≤ 9999) (hmo : mo ≤ 99) (hd : d ≤ 99)
    (hh : h ≤ 99) (hmi2 : mi ≤ 99) (hs : s ≤ 99) :
    ∀ c ∈ pad4 y ++ pad2 mo ++ pad2 d ++ pad2 h ++ pad2 mi ++ pad2 s, c.isDigit = true := by
  intro c hc
  simp only [List.mem_append] at hc
  rcases hc with ((((h' | h') | h') | h') | h') | h'
  · exact pad4_digits y hy c h'
  · exact pad2_digits mo hmo c h'
  · exact pad2_digits d hd c h'
  · exact pad2_digits h hh c h'
  · exact pad2_digits mi hmi2 c h'
  · exact pad2_digits s hs c h'

/-! ## Timezone-offset scan lemmas -/

theorem tzScan_cons_not_sign (c : Char) (l : List Char) (h1 : c ≠ '+') (h2 : c ≠ '-') :
    tzScan (c :: l) = tzScan l := by
  simp [tzScan, h1, h2]

theorem tzScan_digits_run (ds l : List Char) (h : ∀ c ∈ ds, c.isDigit = true) :
    tzScan (ds ++ l) = tzScan l := by
  induction ds with
  | nil => simp
  | cons a tl ih =>
    have ha := h a (by simp)
    rw [List.cons_append, tzScan_cons_not_sign _ _ (char_isDigit_ne a '+' ha (by decide))
        (char_isDigit_ne a '-' ha (by decide))]
    exact ih (fun c hc => h c (by simp [hc]))

theorem tzScan_digits_nil (ds : List Char) (h : ∀ c ∈ ds, c.isDigit = true) :
    tzScan ds = none := by
  have hp := tzScan_digits_run ds [] h
  simpa using hp

theorem tzScan_sign (c : Char) (hc : c = '+' ∨ c = '-') (a b e f : Nat)
    (ha : a ≤ 9) (hb : b ≤ 9) (he : e ≤ 9) (hf : f ≤ 9) (tail : List Char) :
    tzScan (c :: digitChar a :: digitChar b :: digitChar e :: digitChar f :: tail) =
      some ((if c = '+' then 1 else -1) *
        ((10 * (a : Int) + b) * 60 + (10 * (e : Int) + f))) := by
  simp only [tzScan, if_pos hc]
  rw [if_pos (by simp [digitChar_isDigit _ ha, digitChar_isDigit _ hb,
    digitChar_isDigit _ he, digitChar_isDigit _ hf])]
  rw [digitVal_digitChar _ ha, digitVal_digitChar _ hb, digitVal_digitChar _ he,
    digitVal_digitChar _ hf]

/-! ## Range facts: the clip never fires on feed-shaped timestamps -/

theorem timeClip_small (t : Int) (h1 : -8640000000000000 ≤ t)
    (h2 : t ≤ 8640000000000000) : timeClip t = some t := by
  unfold timeClip
  rw [if_pos (by omega)]

theorem daysFromCivil_bound (y m d : Int) (hy : 98 ≤ y) (hy2 : y ≤ 10009)
    (hm : 1 ≤ m) (hm2 : m ≤ 12) (hd0 : -1 ≤ d) (hd : d ≤ 99) :
    -800000 ≤ daysFromCivil y m d ∧ daysFromCivil y m d ≤ 3800000 := by
  simp only [daysFromCivil]
  split_ifs <;> constructor <;> omega

theorem jsDateUTC_bound (y m d h mi s : Int) (hy : 0 ≤ y) (hy2 : y ≤ 9999)
    (hm : -1 ≤ m) (hm2 : m ≤ 98) (hd : 0 ≤ d) (hd2 : d ≤ 99)
    (hh : 0 ≤ h) (hh2 : h ≤ 99) (hmi : 0 ≤ mi) (hmi2 : mi ≤ 99)
    (hs : 0 ≤ s) (hs2 : s ≤ 99) :
    -80000000000000 ≤ jsDateUTC y m d h mi s ∧ jsDateUTC y m d h mi s ≤ 340000000000000 := by
  simp only [jsDateUTC]
  split_ifs with hq
  · have hb := daysFromCivil_bound (y + 1900 + m / 12) (m % 12 + 1) d (by omega) (by omega)
      (by omega) (by omega) (by omega) (by omega)
    constructor <;> omega
  · have hb := daysFromCivil_bound (y + m / 12) (m % 12 + 1) d (by omega) (by omega)
      (by omega) (by omega) (by omega) (by omega)
    constructor <;> omega

theorem tzMinutes_bound (pos : Bool) (oh om : Nat) (hoh : oh ≤ 99) (hom : om ≤ 99) :
    -6039 ≤ tzMinutes (some (pos, oh, om)) ∧ tzMinutes (some (pos, oh, om)) ≤ 6039 := by
  cases pos <;> simp [tzMinutes] <;> omega

/-- Evaluation of `parseTimeStr` on every canonically formatted
timestamp: the stored instant is the JS `Date.UTC` interpretation of the
naive fields, minus the explicit offset, plus the caller's local
timezone offset. -/
theorem parseTimeStr_mkTimeStr (y mo d h mi s : Nat) (off : Option (Bool × Nat × Nat))
    (localOffset : Int) (hy : y ≤ 9999) (hmo : mo ≤ 99) (hd : d ≤ 99) (hh : h ≤ 99)
    (hmi2 : mi ≤ 99) (hs : s ≤ 99)
    (hoffb : ∀ pos oh om, off = some (pos, oh, om) → oh ≤ 99 ∧ om ≤ 99)
    (hl1 : -1440 ≤ localOffset) (hl2 : localOffset ≤ 1440) :
    parseTimeStr (mkTimeStr y mo d h mi s off) localOffset =
      some (jsDateUTC (y : Int) ((mo : Int) - 1) (d : Int) (h : Int) (mi : Int) (s : Int)
        - tzMinutes off * 60000 + localOffset * 60000) := by
  have hutc := jsDateUTC_bound (y : Int) ((mo : Int) - 1) (d : Int) (h : Int) (mi : Int) (s : Int)
    (by omega) (by omega) (by omega) (by omega) (by omega) (by omega) (by omega) (by omega)
    (by omega) (by omega) (by omega) (by omega)
  rcases off with _ | ⟨pos, oh, om⟩
  · have e0 : mkTimeStr y mo d h mi s none =
        pad4 y ++ pad2 mo ++ pad2 d ++ pad2 h ++ pad2 mi ++ pad2 s := by
      simp [mkTimeStr]
    rw [e0]
    have hne : pad4 y ++ pad2 mo ++ pad2 d ++ pad2 h ++ pad2 mi ++ pad2 s ≠ [] := by
      simp [pad4]
    simp only [parseTimeStr]
    rw [if_neg hne]
    rw [show jsSlice ((pad4 y ++ pad2 mo ++ pad2 d ++ pad2 h ++ pad2 mi ++ pad2 s).take 14) 0 4
          = pad4 y from rfl,
        show jsSlice ((pad4 y ++ pad2 mo ++ pad2 d ++ pad2 h ++ pad2 mi ++ pad2 s).take 14) 4 6
          = pad2 mo from rfl,
        show jsSlice ((pad4 y ++ pad2 mo ++ pad2 d ++ pad2 h ++ pad2 mi ++ pad2 s).take 14) 6 8
          = pad2 d from rfl,
        show jsSlice ((pad4 y ++ pad2 mo ++ pad2 d ++ pad2 h ++ pad2 mi ++ pad2 s).take 14) 8 10
          = pad2 h from rfl,
        show jsSlice ((pad4 y ++ pad2 mo ++ pad2 d ++ pad2 h ++ pad2 mi ++ pad2 s).take 14) 10 12
          = pad2 mi from rfl,
        show jsSlice ((pad4 y ++ pad2 mo ++ pad2 d ++ pad2 h ++ pad2 mi ++ pad2 s).take 14) 12 14
          = pad2 s from rfl]
    rw [jsParseInt_pad4 y hy, jsParseInt_pad2 mo hmo, jsParseInt_pad2 d hd,
        jsParseInt_pad2 h hh, jsParseInt_pad2 mi hmi2, jsParseInt_pad2 s hs]
    dsimp only
    rw [tzScan_digits_nil _ (digits14_digits y mo d h mi s hy hmo hd hh hmi2 hs)]
    dsimp only [Option.getD]
    rw [timeClip_small _ (by omega) (by omega)]
    dsimp only
    rw [timeClip_small _ (by omega) (by omega)]
    simp only [tzMinutes]
  · obtain ⟨hoh, hom⟩ := hoffb pos oh om rfl
    have e0 : mkTimeStr y mo d h mi s (some (pos, oh, om)) =
        (pad4 y ++ pad2 mo ++ pad2 d ++ pad2 h ++ pad2 mi ++ pad2 s) ++
        (' ' :: (if pos then '+' else '-') ::
          (digitChar (oh / 10) :: digitChar (oh % 10) ::
           digitChar (om / 10) :: digitChar (om % 10) :: [])) := rfl
    rw [e0]
    have hne : (pad4 y ++ pad2 mo ++ pad2 d ++ pad2 h ++ pad2 mi ++ pad2 s) ++
        (' ' :: (if pos then '+' else '-') ::
          (digitChar (oh / 10) :: digitChar (oh % 10) ::
           digitChar (om / 10) :: digitChar (om % 10) :: [])) ≠ [] := by
      simp [pad4]
    simp only [parseTimeStr]
    rw [if_neg hne]
    rw [show jsSlice (((pad4 y ++ pad2 mo ++ pad2 d ++ pad2 h ++ pad2 mi ++ pad2 s) ++
          (' ' :: (if pos then '+' else '-') ::
            (digitChar (oh / 10) :: digitChar (oh % 10) ::
             digitChar (om / 10) :: digitChar (om % 10) :: []))).take 14) 0 4
          = pad4 y from by cases pos <;> rfl,
        show jsSlice (((pad4 y ++ pad2 mo ++ pad2 d ++ pad2 h ++ pad2 mi ++ pad2 s) ++
          (' ' :: (if pos then '+' else '-') ::
            (digitChar (oh / 10) :: digitChar (oh % 10) ::
             digitChar (om / 10) :: digitChar (om % 10) :: []))).take 14) 4 6
          = pad2 mo from by cases pos <;> rfl,
        show jsSlice (((pad4 y ++ pad2 mo ++ pad2 d ++ pad2 h ++ pad2 mi ++ pad2 s) ++
          (' ' :: (if pos then '+' else '-') ::
            (digitChar (oh / 10) :: digitChar (oh % 10) ::
             digitChar (om / 10) :: digitChar (om % 10) :: []))).take 14) 6 8
          = pad2 d from by cases pos <;> rfl,
        show jsSlice (((pad4 y ++ pad2 mo ++ pad2 d ++ pad2 h ++ pad2 mi ++ pad2 s) ++
          (' ' :: (if pos then '+' else '-') ::
            (digitChar (oh / 10) :: digitChar (oh % 10) ::
             digitChar (om / 10) :: digitChar (om % 10) :: []))).take 14) 8 10
          = pad2 h from by cases pos <;> rfl,
        show jsSlice (((pad4 y ++ pad2 mo ++ pad2 d ++ pad2 h ++ pad2 mi ++ pad2 s) ++
          (' ' :: (if pos then '+' else '-') ::
            (digitChar (oh / 10) :: digitChar (oh % 10) ::
             digitChar (om / 10) :: digitChar (om % 10) :: []))).take 14) 10 12
          = pad2 mi from by cases pos <;> rfl,
        show jsSlice (((pad4 y ++ pad2 mo ++ pad2 d ++ pad2 h ++ pad2 mi ++ pad2 s) ++
          (' ' :: (if pos then '+' else '-') ::
            (digitChar (oh / 10) :: digitChar (oh % 10) ::
             digitChar (om / 10) :: digitChar (om % 10) :: []))).take 14) 12 14
          = pad2 s from by cases pos <;> rfl]
    rw [jsParseInt_pad4 y hy, jsParseInt_pad2 mo hmo, jsParseInt_pad2 d hd,
        jsParseInt_pad2 h hh, jsParseInt_pad2 mi hmi2, jsParseInt_pad2 s hs]
    dsimp only
    rw [tzScan_digits_run _ _ (digits14_digits y mo d h mi s hy hmo hd hh hmi2 hs)]
    rw [tzScan_cons_not_sign ' ' _ (by decide) (by decide)]
    rw [tzScan_sign (if pos then '+' else '-') (by cases pos <;> simp) (oh / 10) (oh % 10)
        (om / 10) (om % 10) (by omega) (by omega) (by omega) (by omega) []]
    dsimp only [Option.getD]
    rw [timeClip_small _ (by omega) (by omega)]
    dsimp only
    have htzv : ((if (if pos then '+' else '-') = '+' then (1:Int) else -1) *
        ((10 * ((oh / 10 : Nat) : Int) + ((oh % 10 : Nat) : Int)) * 60 +
         (10 * ((om / 10 : Nat) : Int) + ((om % 10 : Nat) : Int)))) =
        tzMinutes (some (pos, oh, om)) := by
      cases pos <;> simp [tzMinutes] <;> omega
    rw [htzv]
    rw [timeClip_small _ (by have := tzMinutes_bound pos oh om hoh hom; omega)
        (by have := tzMinutes_bound pos oh om hoh hom; omega)]

/-! ## Wall-clock re-expression round trip (helpers for the C5 claim) -/

theorem char_toLower_toLower (c : Char) : c.toLower.toLower = c.toLower := by
  by_cases h : 65 ≤ c.toNat ∧ c.toNat ≤ 90
  · obtain ⟨h1, h2⟩ := h
    have hc : c = Char.ofNat c.toNat := (Char.ofNat_toNat c).symm
    set n := c.toNat with hn
    rw [hc]
    interval_cases n <;> decide
  · have he : c.toLower = c := by
      simp only [Char.toLower]
      rw [if_neg h]
    rw [he, he]

theorem jsToLowerCase_idem (s : String) : jsToLowerCase (jsToLowerCase s) = jsToLowerCase s := by
  simp only [jsToLowerCase, List.map_map]
  refine congrArg String.mk ?_
  exact List.map_congr_left (fun a _ => char_toLower_toLower a)

theorem jsDateUTC_valid (y m d h mi s : Int) (hy : 100 ≤ y) (hy2 : y ≤ 9999)
    (hm : 1 ≤ m) (hm2 : m ≤ 12) :
    jsDateUTC y (m - 1) d h mi s =
      daysFromCivil y m d * 86400000 + h * 3600000 + mi * 60000 + s * 1000 := by
  simp only [jsDateUTC]
  rw [if_neg (by omega)]
  rw [show (m - 1) / 12 = 0 from by omega, show (m - 1) % 12 = m - 1 from by omega]
  norm_num

theorem fieldsAt_encode (y m d h mi s : Int) (hm1 : 1 ≤ m) (hm2 : m ≤ 12)
    (hd1 : 1 ≤ d) (hd2 : d ≤ daysInMonth y m)
    (hh : 0 ≤ h) (hh2 : h ≤ 23) (hmi : 0 ≤ mi) (hmi2 : mi ≤ 59)
    (hs : 0 ≤ s) (hs2 : s ≤ 59) :
    fieldsAt (daysFromCivil y m d * 86400000 + h * 3600000 + mi * 60000 + s * 1000) =
      ⟨y, m, d, h, mi, s⟩ := by
  have hcfd := civilFromDays_daysFromCivil y m d hm1 hm2 hd1 hd2
  simp only [fieldsAt]
  rw [show (daysFromCivil y m d * 86400000 + h * 3600000 + mi * 60000 + s * 1000) / 86400000
        = daysFromCivil y m d from by omega,
      show (daysFromCivil y m d * 86400000 + h * 3600000 + mi * 60000 + s * 1000) % 86400000
        = h * 3600000 + mi * 60000 + s * 1000 from by omega,
      hcfd]
  simp only [WallClock.mk.injEq]
  exact ⟨trivial, trivial, trivial, by omega, by omega, by omega⟩

/-! ## Sorting lemmas -/

theorem mem_insertByStart (a p : Programme) (l : List Programme) :
    a ∈ insertByStart p l ↔ a = p ∨ a ∈ l := by
  induction l with
  | nil => simp [insertByStart]
  | cons q tl ih =>
    by_cases hlt : p.start < q.start
    · simp [insertByStart, hlt]
    · simp [insertByStart, hlt, ih]
      tauto

theorem sorted_insertByStart (p : Programme) (l : List Programme) (h : SortedByStart l) :
    SortedByStart (insertByStart p l) := by
  induction l with
  | nil =>
    simp [insertByStart, SortedByStart]
  | cons q tl ih =>
    obtain ⟨hq, htl⟩ := List.pairwise_cons.mp h
    by_cases hlt : p.start < q.start
    · simp only [insertByStart, if_pos hlt]
      refine List.pairwise_cons.mpr ⟨?_, h⟩
      intro b hb
      rcases List.mem_cons.mp hb with rfl | hb
      · omega
      · have := hq b hb
        omega
    · simp only [insertByStart, if_neg hlt]
      refine List.pairwise_cons.mpr ⟨?_, ih htl⟩
      intro b hb
      rcases (mem_insertByStart b p tl).mp hb with rfl | hb
      · omega
      · exact hq b hb

theorem sorted_foldl_insertByStart (l acc : List Programme) (h : SortedByStart acc) :
    SortedByStart (l.foldl (fun acc p => insertByStart p acc) acc) := by
  induction l generalizing acc with
  | nil => simpa
  | cons p tl ih => exact ih _ (sorted_insertByStart p acc h)

theorem sorted_sortByStart (l : List Programme) : SortedByStart (sortByStart l) :=
  sorted_foldl_insertByStart l [] (by simp [SortedByStart])

theorem mem_foldl_insertByStart (a : Programme) (l acc : List Programme) :
    a ∈ l.foldl (fun acc p => insertByStart p acc) acc ↔ a ∈ l ∨ a ∈ acc := by
  induction l generalizing acc with
  | nil => simp
  | cons p tl ih =>
    simp only [List.foldl_cons, List.mem_cons]
    rw [ih]
    rw [mem_insertByStart]
    tauto

theorem mem_sortByStart (a : Programme) (l : List Programme) :
    a ∈ sortByStart l ↔ a ∈ l := by
  unfold sortByStart
  rw [mem_foldl_insertByStart]
  simp

/-! ## Association-list lemmas -/

theorem lookupKey_setKey {α : Type} (m : List (String × α)) (k : String) (v : α)
    (q : String) :
    lookupKey (setKey m k v) q = if k = q then some v else lookupKey m q := by
  induction m with
  | nil =>
    simp [setKey, lookupKey]
  | cons kv tl ih =>
    obtain ⟨k', v'⟩ := kv
    by_cases he : k' = k
    · subst he
      simp only [setKey, if_pos rfl, lookupKey]
      by_cases hq : k' = q
      · subst hq
        simp
      · simp [hq, lookupKey]
    · simp only [setKey, if_neg he, lookupKey]
      by_cases hq : k' = q
      · subst hq
        have : ¬ k = k' := fun hh => he hh.symm
        simp [this]
      · simp [hq, ih]

theorem lookupKey_append {α : Type} (m m' : List (String × α)) (q : String) :
    lookupKey (m ++ m') q =
      match lookupKey m q with
      | some v => some v
      | none => lookupKey m' q := by
  induction m with
  | nil => simp [lookupKey]
  | cons kv tl ih =>
    obtain ⟨k', v'⟩ := kv
    by_cases hq : k' = q <;> simp [lookupKey, hq, ih]

theorem lookupKey_pushKey (m : List (String × List Programme)) (k : String)
    (p : Programme) (q : String) :
    lookupKey (pushKey m k p) q =
      if k = q then some ((lookupKey m k).getD [] ++ [p]) else lookupKey m q := by
  unfold pushKey
  cases hm : lookupKey m k with
  | some l =>
    rw [lookupKey_setKey]
    simp [hm]
  | none =>
    rw [lookupKey_append]
    by_cases hq : k = q
    · subst hq
      simp [hm, lookupKey]
    · cases hq2 : lookupKey m q <;> simp [lookupKey, hq, hq2]

/-! ## Index invariants -/

theorem lookupKey_mapVal {α β : Type} (f : α → β) (m : List (String × α)) (q : String) :
    lookupKey (m.map (fun kv => (kv.1, f kv.2))) q = (lookupKey m q).map f := by
  induction m with
  | nil => simp [lookupKey]
  | cons kv tl ih =>
    by_cases hq : kv.1 = q <;> simp [lookupKey, hq, ih]

theorem lookupKey_isSome_iff {α : Type} (m : List (String × α)) (q : String) :
    (lookupKey m q).isSome ↔ ∃ kv ∈ m, kv.1 = q := by
  induction m with
  | nil => simp [lookupKey]
  | cons kv tl ih =>
    by_cases hq : kv.1 = q <;> simp [lookupKey, hq, ih]

theorem lookupKey_some_mem {α : Type} (m : List (String × α)) (q : String) (l : α)
    (h : lookupKey m q = some l) : (q, l) ∈ m := by
  induction m with
  | nil => simp [lookupKey] at h
  | cons kv tl ih =>
    obtain ⟨k1, v1⟩ := kv
    simp only [lookupKey] at h
    by_cases hq : k1 = q
    · rw [if_pos hq] at h
      injection h with h2
      subst hq
      subst h2
      exact List.mem_cons_self _ _
    · rw [if_neg hq] at h
      exact List.mem_cons_of_mem _ (ih h)

theorem mem_setKey {α : Type} (m : List (String × α)) (k : String) (v : α)
    (kv' : String × α) (h : kv' ∈ setKey m k v) : kv' ∈ m ∨ kv' = (k, v) := by
  induction m with
  | nil => simpa [setKey] using h
  | cons kv tl ih =>
    obtain ⟨k1, v1⟩ := kv
    by_cases he : k1 = k
    · subst he
      rw [show setKey ((k1, v1) :: tl) k1 v = (k1, v) :: tl from by simp [setKey]] at h
      rcases List.mem_cons.mp h with h' | h'
      · exact Or.inr h'
      · exact Or.inl (List.mem_cons_of_mem _ h')
    · rw [show setKey ((k1, v1) :: tl) k v = (k1, v1) :: setKey tl k v from by
          simp [setKey, he]] at h
      rcases List.mem_cons.mp h with h' | h'
      · exact Or.inl (by simp [h'])
      · rcases ih h' with h'' | h''
        · exact Or.inl (List.mem_cons_of_mem _ h'')
        · exact Or.inr h''

theorem mem_pushKey (m : List (String × List Programme)) (k : String) (p : Programme)
    (kv' : String × List Programme) (h : kv' ∈ pushKey m k p) :
    kv' ∈ m ∨ kv'.2 = (lookupKey m k).getD [] ++ [p] := by
  unfold pushKey at h
  cases hm : lookupKey m k with
  | some l =>
    rw [hm] at h
    rcases mem_setKey _ _ _ _ h with h' | h'
    · exact Or.inl h'
    · right
      rw [h']
      simp
  | none =>
    rw [hm] at h
    rcases List.mem_append.mp h with h' | h'
    · exact Or.inl h'
    · right
      simp only [List.mem_singleton] at h'
      rw [h']
      simp

theorem allBucketsNonEmpty_pushKey (m : List (String × List Programme)) (k : String)
    (p : Programme) (h : AllBucketsNonEmpty m) : AllBucketsNonEmpty (pushKey m k p) := by
  intro kv hkv
  rcases mem_pushKey m k p kv hkv with h' | h'
  · exact h kv h'
  · rw [h']
    simp

theorem allBucketsNonEmpty_insertFold (ps : List XmlProgramme)
    (idToName : List (String × String)) (idToIcon : List (String × Option String))
    (lo : Int) (acc : List (String × List Programme) × List (String × List Programme))
    (h1 : AllBucketsNonEmpty acc.1) (h2 : AllBucketsNonEmpty acc.2) :
    AllBucketsNonEmpty (ps.foldl (insertStep idToName idToIcon lo) acc).1 ∧
      AllBucketsNonEmpty (ps.foldl (insertStep idToName idToIcon lo) acc).2 := by
  induction ps generalizing acc with
  | nil => exact ⟨h1, h2⟩
  | cons e tl ih =>
    simp only [List.foldl_cons]
    apply ih
    · unfold insertStep
      cases parseTimeStr e.start.data lo <;> cases parseTimeStr e.stop.data lo <;>
        simp only <;> first
        | exact h1
        | exact allBucketsNonEmpty_pushKey _ _ _ h1
    · unfold insertStep
      cases parseTimeStr e.start.data lo <;> cases parseTimeStr e.stop.data lo <;>
        simp only <;> first
        | exact h2
        | exact allBucketsNonEmpty_pushKey _ _ _ h2

theorem sortByStart_ne_nil (l : List Programme) (h : l ≠ []) : sortByStart l ≠ [] := by
  obtain ⟨a, ha⟩ := List.exists_mem_of_ne_nil l h
  intro hc
  have := (mem_sortByStart a l).mpr ha
  rw [hc] at this
  simp at this

theorem allBucketsNonEmpty_mapSort (m : List (String × List Programme))
    (h : AllBucketsNonEmpty m) :
    AllBucketsNonEmpty (m.map (fun kv => (kv.1, sortByStart kv.2))) := by
  intro kv hkv
  rcases List.mem_map.mp hkv with ⟨kv0, hkv0, rfl⟩
  exact sortByStart_ne_nil _ (h kv0 hkv0)

theorem mem_foldl_setKeyLower (m acc : List (String × List Programme))
    (kv' : String × List Programme)
    (h : kv' ∈ m.foldl (fun acc kv => setKey acc (jsToLowerCase kv.1) kv.2) acc) :
    kv' ∈ acc ∨ ∃ kv ∈ m, kv'.2 = kv.2 := by
  induction m generalizing acc with
  | nil => exact Or.inl h
  | cons kv tl ih =>
    simp only [List.foldl_cons] at h
    rcases ih _ h with h' | ⟨kv0, hkv0, hval⟩
    · rcases mem_setKey _ _ _ _ h' with h'' | h''
      · exact Or.inl h''
      · right
        exact ⟨kv, by simp, by rw [h'']⟩
    · right
      exact ⟨kv0, by simp [hkv0], hval⟩

theorem allBucketsNonEmpty_normalizeIndex (m : List (String × List Programme))
    (h : AllBucketsNonEmpty m) : AllBucketsNonEmpty (normalizeIndex m) := by
  intro kv hkv
  rcases mem_foldl_setKeyLower m [] kv hkv with h' | ⟨kv0, hkv0, hval⟩
  · simp at h'
  · rw [hval]
    exact h kv0 hkv0

theorem lookup_foldl_setKeyLower_isSome (m acc : List (String × List Programme)) (q : String) :
    (lookupKey (m.foldl (fun acc kv => setKey acc (jsToLowerCase kv.1) kv.2) acc) q).isSome ↔
      (∃ kv ∈ m, jsToLowerCase kv.1 = q) ∨ (lookupKey acc q).isSome := by
  induction m generalizing acc with
  | nil => simp
  | cons kv tl ih =>
    simp only [List.foldl_cons]
    rw [ih]
    constructor
    · rintro (h | h)
      · left
        obtain ⟨kv0, hm, hq⟩ := h
        exact ⟨kv0, by simp [hm], hq⟩
      · rw [lookupKey_setKey] at h
        by_cases he : jsToLowerCase kv.1 = q
        · left
          exact ⟨kv, by simp, he⟩
        · rw [if_neg he] at h
          right
          exact h
    · rintro (⟨kv0, hm, hq⟩ | h)
      · rcases List.mem_cons.mp hm with rfl | hm'
        · right
          rw [lookupKey_setKey, if_pos hq]
          simp
        · left
          exact ⟨kv0, hm', hq⟩
      · right
        rw [lookupKey_setKey]
        split_ifs
        · simp
        · exact h

theorem normalizeIndex_isSome_iff (m : List (String × List Programme)) (q : String) :
    (lookupKey (normalizeIndex m) q).isSome ↔ ∃ kv ∈ m, jsToLowerCase kv.1 = q := by
  unfold normalizeIndex
  rw [lookup_foldl_setKeyLower_isSome]
  simp [lookupKey]

theorem normalizeIndex_values (m : List (String × List Programme)) (q : String)
    (l : List Programme) (h : lookupKey (normalizeIndex m) q = some l) :
    ∃ kv ∈ m, kv.2 = l := by
  have hmem := lookupKey_some_mem _ _ _ h
  rcases mem_foldl_setKeyLower m [] (q, l) hmem with h' | ⟨kv0, hkv0, hval⟩
  · simp at h'
  · exact ⟨kv0, hkv0, hval.symm⟩

/-! ## Provenance and accumulation through the programme fold -/

theorem mem_bucket_insertFold_fst (ps : List XmlProgramme)
    (idToName : List (String × String)) (idToIcon : List (String × Option String)) (lo : Int)
    (acc : List (String × List Programme) × List (String × List Programme))
    (k : String) (pr : Programme)
    (hmem : pr ∈ (lookupKey (ps.foldl (insertStep idToName idToIcon lo) acc).1 k).getD []) :
    pr ∈ (lookupKey acc.1 k).getD [] ∨
      ∃ e ∈ ps, ∃ st en, parseTimeStr e.start.data lo = some st ∧
        parseTimeStr e.stop.data lo = some en ∧ pr = buildRecord idToIcon e st en := by
  induction ps generalizing acc with
  | nil => exact Or.inl hmem
  | cons e tl ih =>
    simp only [List.foldl_cons] at hmem
    rcases ih _ hmem with hacc | ⟨e', he', hrest⟩
    · cases hst : parseTimeStr e.start.data lo with
      | none =>
        rw [show insertStep idToName idToIcon lo acc e = acc from by
          simp [insertStep, hst]] at hacc
        exact Or.inl hacc
      | some st =>
        cases hen : parseTimeStr e.stop.data lo with
        | none =>
          rw [show insertStep idToName idToIcon lo acc e = acc from by
            simp [insertStep, hst, hen]] at hacc
          exact Or.inl hacc
        | some en =>
          rw [show (insertStep idToName idToIcon lo acc e).1 =
              pushKey acc.1 (resolveDisplayName idToName e.channel)
                (buildRecord idToIcon e st en) from by
            simp [insertStep, hst, hen]] at hacc
          rw [lookupKey_pushKey] at hacc
          by_cases hk : resolveDisplayName idToName e.channel = k
          · rw [if_pos hk] at hacc
            simp only [Option.getD_some, List.mem_append, List.mem_singleton] at hacc
            rcases hacc with h' | h'
            · rw [← hk]
              exact Or.inl h'
            · exact Or.inr ⟨e, by simp, st, en, hst, hen, h'⟩
          · rw [if_neg hk] at hacc
            exact Or.inl hacc
    · exact Or.inr ⟨e', by simp [he'], hrest⟩

theorem mem_bucket_insertFold_snd (ps : List XmlProgramme)
    (idToName : List (String × String)) (idToIcon : List (String × Option String)) (lo : Int)
    (acc : List (String × List Programme) × List (String × List Programme))
    (k : String) (pr : Programme)
    (hmem : pr ∈ (lookupKey (ps.foldl (insertStep idToName idToIcon lo) acc).2 k).getD []) :
    pr ∈ (lookupKey acc.2 k).getD [] ∨
      ∃ e ∈ ps, ∃ st en, parseTimeStr e.start.data lo = some st ∧
        parseTimeStr e.stop.data lo = some en ∧ pr = buildRecord idToIcon e st en := by
  induction ps generalizing acc with
  | nil => exact Or.inl hmem
  | cons e tl ih =>
    simp only [List.foldl_cons] at hmem
    rcases ih _ hmem with hacc | ⟨e', he', hrest⟩
    · cases hst : parseTimeStr e.start.data lo with
      | none =>
        rw [show insertStep idToName idToIcon lo acc e = acc from by
          simp [insertStep, hst]] at hacc
        exact Or.inl hacc
      | some st =>
        cases hen : parseTimeStr e.stop.data lo with
        | none =>
          rw [show insertStep idToName idToIcon lo acc e = acc from by
            simp [insertStep, hst, hen]] at hacc
          exact Or.inl hacc
        | some en =>
          rw [show (insertStep idToName idToIcon lo acc e).2 =
              pushKey acc.2 e.channel (buildRecord idToIcon e st en) from by
            simp [insertStep, hst, hen]] at hacc
          rw [lookupKey_pushKey] at hacc
          by_cases hk : e.channel = k
          · rw [if_pos hk] at hacc
            simp only [Option.getD_some, List.mem_append, List.mem_singleton] at hacc
            rcases hacc with h' | h'
            · rw [← hk]
              exact Or.inl h'
            · exact Or.inr ⟨e, by simp, st, en, hst, hen, h'⟩
          · rw [if_neg hk] at hacc
            exact Or.inl hacc
    · exact Or.inr ⟨e', by simp [he'], hrest⟩

theorem mem_getD_pushKey (m : List (String × List Programme)) (k' : String) (p : Programme)
    (k : String) (pr : Programme) (h : pr ∈ (lookupKey m k).getD []) :
    pr ∈ (lookupKey (pushKey m k' p) k).getD [] := by
  rw [lookupKey_pushKey]
  by_cases hk : k' = k
  · rw [if_pos hk]
    subst hk
    simp only [Option.getD_some, List.mem_append]
    exact Or.inl h
  · rw [if_neg hk]
    exact h

theorem mem_getD_insertFold_preserved (ps : List XmlProgramme)
    (idToName : List (String × String)) (idToIcon : List (String × Option String)) (lo : Int)
    (acc : List (String × List Programme) × List (String × List Programme))
    (k : String) (pr : Programme) (h : pr ∈ (lookupKey acc.1 k).getD []) :
    pr ∈ (lookupKey (ps.foldl (insertStep idToName idToIcon lo) acc).1 k).getD [] := by
  induction ps generalizing acc with
  | nil => exact h
  | cons e tl ih =>
    simp only [List.foldl_cons]
    apply ih
    cases hst : parseTimeStr e.start.data lo with
    | none =>
      rw [show insertStep idToName idToIcon lo acc e = acc from by simp [insertStep, hst]]
      exact h
    | some st =>
      cases hen : parseTimeStr e.stop.data lo with
      | none =>
        rw [show insertStep idToName idToIcon lo acc e = acc from by simp [insertStep, hst, hen]]
        exact h
      | some en =>
        rw [show (insertStep idToName idToIcon lo acc e).1 =
            pushKey acc.1 (resolveDisplayName idToName e.channel)
              (buildRecord idToIcon e st en) from by simp [insertStep, hst, hen]]
        exact mem_getD_pushKey _ _ _ _ _ h

theorem record_mem_insertFold (ps : List XmlProgramme)
    (idToName : List (String × String)) (idToIcon : List (String × Option String)) (lo : Int)
    (acc : List (String × List Programme) × List (String × List Programme))
    (e : XmlProgramme) (he : e ∈ ps) (st en : Int)
    (hst : parseTimeStr e.start.data lo = some st)
    (hen : parseTimeStr e.stop.data lo = some en) :
    buildRecord idToIcon e st en ∈
      (lookupKey (ps.foldl (insertStep idToName idToIcon lo) acc).1
        (resolveDisplayName idToName e.channel)).getD [] := by
  induction ps generalizing acc with
  | nil => simp at he
  | cons e0 tl ih =>
    simp only [List.foldl_cons]
    rcases List.mem_cons.mp he with rfl | he'
    · apply mem_getD_insertFold_preserved
      rw [show (insertStep idToName idToIcon lo acc e).1 =
          pushKey acc.1 (resolveDisplayName idToName e.channel)
            (buildRecord idToIcon e st en) from by simp [insertStep, hst, hen]]
      rw [lookupKey_pushKey, if_pos rfl]
      simp
    · exact ih _ he'

/-! ## Slot-matcher scan lemmas -/

theorem findProgInList_some (ss se : Int) (l : List Programme) (p : Programme)
    (h : findProgInList ss se l = some p) : p ∈ l ∧ overlaps p ss se := by
  induction l with
  | nil => simp [findProgInList] at h
  | cons q tl ih =>
    by_cases hov : q.start < se ∧ ss < q.endTime
    · rw [show findProgInList ss se (q :: tl) = some q from by
        simp [findProgInList, hov]] at h
      injection h with h
      subst h
      exact ⟨by simp, hov⟩
    · rw [show findProgInList ss se (q :: tl) = findProgInList ss se tl from by
        simp [findProgInList, hov]] at h
      obtain ⟨hm, ho⟩ := ih h
      exact ⟨List.mem_cons_of_mem _ hm, ho⟩

theorem findProgInList_none_iff (ss se : Int) (l : List Programme) :
    findProgInList ss se l = none ↔ ∀ q ∈ l, ¬ overlaps q ss se := by
  induction l with
  | nil => simp [findProgInList]
  | cons q tl ih =>
    by_cases hov : q.start < se ∧ ss < q.endTime
    · rw [show findProgInList ss se (q :: tl) = some q from by
        simp [findProgInList, hov]]
      simp only [overlaps]
      constructor
      · intro h
        cases h
      · intro h
        exact absurd hov (h q (by simp))
    · rw [show findProgInList ss se (q :: tl) = findProgInList ss se tl from by
        simp [findProgInList, hov]]
      rw [ih]
      constructor
      · intro h q' hq'
        rcases List.mem_cons.mp hq' with rfl | hq''
        · exact fun hc => hov hc
        · exact h q' hq''
      · intro h q' hq'
        exact h q' (List.mem_cons_of_mem _ hq')

theorem findProgInList_first (ss se : Int) (l : List Programme) (p : Programme)
    (hsorted : SortedByStart l) (h : findProgInList ss se l = some p) :
    ∀ q ∈ l, overlaps q ss se → p.start ≤ q.start := by
  induction l with
  | nil => simp [findProgInList] at h
  | cons q0 tl ih =>
    obtain ⟨hq0, htl⟩ := List.pairwise_cons.mp hsorted
    by_cases hov : q0.start < se ∧ ss < q0.endTime
    · rw [show findProgInList ss se (q0 :: tl) = some q0 from by
        simp [findProgInList, hov]] at h
      injection h with h
      subst h
      intro q hq _
      rcases List.mem_cons.mp hq with rfl | hq'
      · exact le_refl _
      · exact hq0 q hq'
    · rw [show findProgInList ss se (q0 :: tl) = findProgInList ss se tl from by
        simp [findProgInList, hov]] at h
      intro q hq hqov
      rcases List.mem_cons.mp hq with rfl | hq'
      · exact absurd hqov hov
      · exact ih htl h q hq' hqov

/-! ## Sortedness of every bucket after a load -/

theorem lookup_mapSort_sorted (m : List (String × List Programme)) (k : String)
    (l : List Programme)
    (h : lookupKey (m.map (fun kv => (kv.1, sortByStart kv.2))) k = some l) :
    SortedByStart l := by
  rw [lookupKey_mapVal] at h
  cases h0 : lookupKey m k with
  | none =>
    rw [h0] at h
    simp at h
  | some l0 =>
    rw [h0] at h
    simp only [Option.map_some'] at h
    injection h with h
    rw [← h]
    exact sorted_sortByStart l0

theorem loadEpgState_sorted (doc : XmlDoc) (lo : Int) :
    (∀ k l, lookupKey (loadEpgState doc lo).epgSchedule k = some l → SortedByStart l) ∧
    (∀ k l, lookupKey (loadEpgState doc lo).epgScheduleNormalized k = some l →
       SortedByStart l) ∧
    (∀ k l, lookupKey (loadEpgState doc lo).epgScheduleByTvgId k = some l →
       SortedByStart l) := by
  refine ⟨?_, ?_, ?_⟩
  · intro k l h
    exact lookup_mapSort_sorted _ _ _ h
  · intro k l h
    have hv := normalizeIndex_values _ _ _ h
    obtain ⟨kv, hkv, hval⟩ := hv
    rcases List.mem_map.mp hkv with ⟨kv0, _, rfl⟩
    rw [← hval]
    exact sorted_sortByStart kv0.2
  · intro k l h
    exact lookup_mapSort_sorted _ _ _ h

theorem selectList_sorted (doc : XmlDoc) (lo : Int) (ch : Channel) :
    SortedByStart (selectList (loadEpgState doc lo) ch) := by
  obtain ⟨hs1, hs2, hs3⟩ := loadEpgState_sorted doc lo
  unfold selectList
  split_ifs with hT
  · cases hP : lookupKey (loadEpgState doc lo).epgScheduleByTvgId (ch.tvgId.getD "") with
    | none => simp [hP, SortedByStart]
    | some l => simpa [hP] using hs3 _ _ hP
  · cases h2 : lookupKey (loadEpgState doc lo).epgScheduleNormalized (jsToLowerCase ch.name) with
    | some l => simpa using hs2 _ _ h2
    | none =>
      cases h3 : lookupKey (loadEpgState doc lo).epgSchedule ch.name with
      | some l => simpa using hs1 _ _ h3
      | none => simp [SortedByStart]

/-! ## State-level non-emptiness of every bucket -/

theorem loadEpgState_nonempty (doc : XmlDoc) (lo : Int) :
    AllBucketsNonEmpty (loadEpgState doc lo).epgSchedule ∧
    AllBucketsNonEmpty (loadEpgState doc lo).epgScheduleNormalized ∧
    AllBucketsNonEmpty (loadEpgState doc lo).epgScheduleByTvgId := by
  have h := allBucketsNonEmpty_insertFold doc.programmes (channelMaps doc.channels).1
    (channelMaps doc.channels).2 lo ([], [])
    (by intro kv hkv; simp at hkv) (by intro kv hkv; simp at hkv)
  refine ⟨?_, ?_, ?_⟩
  · exact allBucketsNonEmpty_mapSort _ h.1
  · exact allBucketsNonEmpty_normalizeIndex _ (allBucketsNonEmpty_mapSort _ h.1)
  · exact allBucketsNonEmpty_mapSort _ h.2

/-! ## The candidate selection matches the spec tiers (amended) -/

theorem loadEpgState_norm_eq (doc : XmlDoc) (lo : Int) :
    (loadEpgState doc lo).epgScheduleNormalized =
      normalizeIndex ((loadEpgState doc lo).epgSchedule) := rfl

theorem loadEpgState_key_lower (doc : XmlDoc) (lo : Int) (q : String)
    (h : (lookupKey (loadEpgState doc lo).epgSchedule q).isSome) :
    (lookupKey (loadEpgState doc lo).epgScheduleNormalized (jsToLowerCase q)).isSome := by
  obtain ⟨kv, hkv, hkq⟩ := (lookupKey_isSome_iff _ _).mp h
  rw [loadEpgState_norm_eq]
  exact (normalizeIndex_isSome_iff _ _).mpr ⟨kv, hkv, by rw [hkq]⟩

theorem loadEpgState_normKey_fixed (doc : XmlDoc) (lo : Int) (q : String)
    (h : (lookupKey (loadEpgState doc lo).epgScheduleNormalized q).isSome) :
    jsToLowerCase q = q := by
  rw [loadEpgState_norm_eq] at h
  obtain ⟨kv, _, hkq⟩ := (normalizeIndex_isSome_iff _ _).mp h
  rw [← hkq, jsToLowerCase_idem]

/-- C4 (amended): on any parsed feed, candidate selection is first
tier that yields a non-empty list with no merging — feed-identifier
bucket when the identifier is TRUTHY (non-null and non-empty) and
present, else normalized name, else raw name in the normalized index —
exactly `amendedCandidates`.  The original claim's tier-1 guard
("non-null") is refuted by `tier_selection_requires_truthy_id`. -/
theorem findProgramme_tier_selection (doc : XmlDoc) (lo : Int) (ch : Channel) :
    selectList (loadEpgState doc lo) ch = amendedCandidates (loadEpgState doc lo) ch := by
  obtain ⟨hne1, hne2, hne3⟩ := loadEpgState_nonempty doc lo
  by_cases hT : tvgIdTruthy ch.tvgId = true
  · cases hP : lookupKey (loadEpgState doc lo).epgScheduleByTvgId (ch.tvgId.getD "") with
    | some l =>
      have hlne : l ≠ [] := hne3 _ (lookupKey_some_mem _ _ _ hP)
      simp [selectList, amendedCandidates, hT, hP, hlne]
    | none =>
      simp only [selectList, amendedCandidates, hT, hP]
      rw [if_neg (by simp)]
      simp only [Option.getD_none, if_pos rfl]
      rw [if_neg (by simp)]
      cases h2 : lookupKey (loadEpgState doc lo).epgScheduleNormalized
          (jsToLowerCase ch.name) with
      | some l =>
        have hlne : l ≠ [] := hne2 _ (lookupKey_some_mem _ _ _ h2)
        simp [h2, hlne]
      | none =>
        cases h3 : lookupKey (loadEpgState doc lo).epgSchedule ch.name with
        | some l =>
          exfalso
          have hx := loadEpgState_key_lower doc lo ch.name (by simp [h3])
          rw [h2] at hx
          simp at hx
        | none =>
          cases h4 : lookupKey (loadEpgState doc lo).epgScheduleNormalized ch.name with
          | some l =>
            exfalso
            have hlq := loadEpgState_normKey_fixed doc lo ch.name (by simp [h4])
            rw [hlq] at h2
            rw [h2] at h4
            simp at h4
          | none => simp [h2, h3, h4]
  · have hT' : tvgIdTruthy ch.tvgId = false := by
      revert hT
      cases tvgIdTruthy ch.tvgId <;> simp
    simp only [selectList, amendedCandidates, hT']
    rw [if_neg (by simp)]
    rw [if_neg (by simp)]
    cases h2 : lookupKey (loadEpgState doc lo).epgScheduleNormalized
        (jsToLowerCase ch.name) with
    | some l =>
      have hlne : l ≠ [] := hne2 _ (lookupKey_some_mem _ _ _ h2)
      simp [h2, hlne]
    | none =>
      cases h3 : lookupKey (loadEpgState doc lo).epgSchedule ch.name with
      | some l =>
        exfalso
        have hx := loadEpgState_key_lower doc lo ch.name (by simp [h3])
        rw [h2] at hx
        simp at hx
      | none =>
        cases h4 : lookupKey (loadEpgState doc lo).epgScheduleNormalized ch.name with
        | some l =>
          exfalso
          have hlq := loadEpgState_normKey_fixed doc lo ch.name (by simp [h4])
          rw [hlq] at h2
          rw [h2] at h4
          simp at h4
        | none => simp [h2, h3, h4]

/-! ## Entry-level provenance through the fold -/

theorem entry_mem_insertFold_fst (ps : List XmlProgramme)
    (idToName : List (String × String)) (idToIcon : List (String × Option String)) (lo : Int)
    (acc : List (String × List Programme) × List (String × List Programme))
    (kv : String × List Programme) (pr : Programme)
    (hkv : kv ∈ (ps.foldl (insertStep idToName idToIcon lo) acc).1) (hpr : pr ∈ kv.2) :
    (∃ kv0 ∈ acc.1, pr ∈ kv0.2) ∨
      ∃ e ∈ ps, ∃ st en, parseTimeStr e.start.data lo = some st ∧
        parseTimeStr e.stop.data lo = some en ∧ pr = buildRecord idToIcon e st en := by
  induction ps generalizing acc with
  | nil => exact Or.inl ⟨kv, hkv, hpr⟩
  | cons e tl ih =>
    simp only [List.foldl_cons] at hkv
    rcases ih _ hkv with ⟨kv0, hkv0, hpr0⟩ | ⟨e', he', hrest⟩
    · cases hst : parseTimeStr e.start.data lo with
      | none =>
        rw [show insertStep idToName idToIcon lo acc e = acc from by
          simp [insertStep, hst]] at hkv0
        exact Or.inl ⟨kv0, hkv0, hpr0⟩
      | some st =>
        cases hen : parseTimeStr e.stop.data lo with
        | none =>
          rw [show insertStep idToName idToIcon lo acc e = acc from by
            simp [insertStep, hst, hen]] at hkv0
          exact Or.inl ⟨kv0, hkv0, hpr0⟩
        | some en =>
          rw [show (insertStep idToName idToIcon lo acc e).1 =
              pushKey acc.1 (resolveDisplayName idToName e.channel)
                (buildRecord idToIcon e st en) from by simp [insertStep, hst, hen]] at hkv0
          rcases mem_pushKey _ _ _ _ hkv0 with h' | h'
          · exact Or.inl ⟨kv0, h', hpr0⟩
          · rw [h'] at hpr0
            rcases List.mem_append.mp hpr0 with h'' | h''
            · cases hlk : lookupKey acc.1 (resolveDisplayName idToName e.channel) with
              | none =>
                rw [hlk] at h''
                simp at h''
              | some l0 =>
                rw [hlk] at h''
                exact Or.inl ⟨_, lookupKey_some_mem _ _ _ hlk, h''⟩
            · simp only [List.mem_singleton] at h''
              exact Or.inr ⟨e, by simp, st, en, hst, hen, h''⟩
    · exact Or.inr ⟨e', by simp [he'], hrest⟩

/-! ## Claim C1 -/

/-- C1 (amended): every programme record stored in any list of any of
the three schedule maps originates from a feed entry whose start and
stop both parsed to valid instants; in particular records never carry
invalid instants.  (The `start < end` half of the original claim is
refuted by `parseEpgXml_stores_inverted_interval`.) -/
theorem stored_programme_instants_parsed (doc : XmlDoc) (lo : Int) (k : String)
    (p : Programme)
    (h : p ∈ (lookupKey (loadEpgState doc lo).epgSchedule k).getD [] ∨
         p ∈ (lookupKey (loadEpgState doc lo).epgScheduleByTvgId k).getD [] ∨
         p ∈ (lookupKey (loadEpgState doc lo).epgScheduleNormalized k).getD []) :
    ∃ e ∈ doc.programmes, parseTimeStr e.start.data lo = some p.start ∧
      parseTimeStr e.stop.data lo = some p.endTime := by
  have hmain : ∀ e st en, e ∈ doc.programmes →
      parseTimeStr e.start.data lo = some st → parseTimeStr e.stop.data lo = some en →
      p = buildRecord (channelMaps doc.channels).2 e st en →
      ∃ e' ∈ doc.programmes, parseTimeStr e'.start.data lo = some p.start ∧
        parseTimeStr e'.stop.data lo = some p.endTime := by
    intro e st en he hst hen hp
    refine ⟨e, he, ?_, ?_⟩
    · rw [hp]
      simpa [buildRecord] using hst
    · rw [hp]
      simpa [buildRecord] using hen
  rcases h with h | h | h
  · cases hlk : lookupKey (loadEpgState doc lo).epgSchedule k with
    | none =>
      rw [hlk] at h
      simp at h
    | some l =>
      rw [hlk] at h
      rw [show (loadEpgState doc lo).epgSchedule =
          (insertProgrammes doc lo).1.map (fun kv => (kv.1, sortByStart kv.2)) from rfl,
        lookupKey_mapVal] at hlk
      cases h0 : lookupKey (insertProgrammes doc lo).1 k with
      | none =>
        rw [h0] at hlk
        simp at hlk
      | some l0 =>
        rw [h0] at hlk
        simp only [Option.map_some'] at hlk
        injection hlk with hlk
        rw [← hlk] at h
        have hm0 : p ∈ (lookupKey (insertProgrammes doc lo).1 k).getD [] := by
          rw [h0]
          simpa using (mem_sortByStart p l0).mp h
        rcases mem_bucket_insertFold_fst doc.programmes _ _ lo ([], []) k p hm0 with h' |
            ⟨e, he, st, en, hst, hen, hp⟩
        · simp [lookupKey] at h'
        · exact hmain e st en he hst hen hp
  · cases hlk : lookupKey (loadEpgState doc lo).epgScheduleByTvgId k with
    | none =>
      rw [hlk] at h
      simp at h
    | some l =>
      rw [hlk] at h
      rw [show (loadEpgState doc lo).epgScheduleByTvgId =
          (insertProgrammes doc lo).2.map (fun kv => (kv.1, sortByStart kv.2)) from rfl,
        lookupKey_mapVal] at hlk
      cases h0 : lookupKey (insertProgrammes doc lo).2 k with
      | none =>
        rw [h0] at hlk
        simp at hlk
      | some l0 =>
        rw [h0] at hlk
        simp only [Option.map_some'] at hlk
        injection hlk with hlk
        rw [← hlk] at h
        have hm0 : p ∈ (lookupKey (insertProgrammes doc lo).2 k).getD [] := by
          rw [h0]
          simpa using (mem_sortByStart p l0).mp h
        rcases mem_bucket_insertFold_snd doc.programmes _ _ lo ([], []) k p hm0 with h' |
            ⟨e, he, st, en, hst, hen, hp⟩
        · simp [lookupKey] at h'
        · exact hmain e st en he hst hen hp
  · cases hlk : lookupKey (loadEpgState doc lo).epgScheduleNormalized k with
    | none =>
      rw [hlk] at h
      simp at h
    | some l =>
      rw [hlk] at h
      rw [loadEpgState_norm_eq] at hlk
      obtain ⟨kv, hkv, hval⟩ := normalizeIndex_values _ _ _ hlk
      rcases List.mem_map.mp (by
          exact hkv :
          kv ∈ (insertProgrammes doc lo).1.map (fun kv => (kv.1, sortByStart kv.2)))
        with ⟨kv0, hkv0, rfl⟩
      have hp0 : p ∈ kv0.2 := by
        refine (mem_sortByStart p kv0.2).mp ?_
        rw [show (kv0.1, sortByStart kv0.2).2 = sortByStart kv0.2 from rfl] at hval
        rw [hval]
        exact h
      rcases entry_mem_insertFold_fst doc.programmes _ _ lo ([], []) kv0 p hkv0 hp0 with
          ⟨kv1, hkv1, _⟩ | ⟨e, he, st, en, hst, hen, hp⟩
      · simp at hkv1
      · exact hmain e st en he hst hen hp

/-- C1 (counterexample to the original claim): `feedInverted`'s entry
parses on both timestamps but has `start > end`; it is stored anyway,
so the `start < end` invariant is not enforced by the parser. -/
theorem parseEpgXml_stores_inverted_interval :
    (lookupKey (loadEpgState feedInverted 0).epgSchedule "A").getD [] =
      [{ title := "Bad", subtitle := "", desc := "", rating := "", season := none,
         episodeNumber := none, start := 1704135600000, endTime := 1704132000000,
         icon := none }] ∧
    ¬ ((1704135600000 : Int) < 1704132000000) := by
  constructor
  · rfl
  · decide

/-! ## Claim C2 -/

/-- C2 (amended): on a canonical `YYYYMMDDHHMMSS[ ±HHMM]` timestamp the
parser returns the naive UTC instant of the calendar fields minus the
explicit offset (zero when absent) PLUS the caller's local timezone
offset; the original claim omits the trailing local-offset term
(counterexample `parseTimeStr_adds_local_offset`). -/
theorem parseTimeStr_canonical (y mo d h mi s : Nat) (off : Option (Bool × Nat × Nat))
    (localOffset : Int) (hy : 100 ≤ y) (hy2 : y ≤ 9999) (hmo1 : 1 ≤ mo) (hmo2 : mo ≤ 12)
    (hd : d ≤ 99) (hh : h ≤ 99) (hmi2 : mi ≤ 99) (hs : s ≤ 99)
    (hoffb : off.elim True (fun x => x.2.1 ≤ 99 ∧ x.2.2 ≤ 99))
    (hl1 : -1440 ≤ localOffset) (hl2 : localOffset ≤ 1440) :
    parseTimeStr (mkTimeStr y mo d h mi s off) localOffset =
      some (specNaiveUTC (y : Int) (mo : Int) (d : Int) (h : Int) (mi : Int) (s : Int)
        - tzMinutes off * 60000 + localOffset * 60000) := by
  rw [parseTimeStr_mkTimeStr y mo d h mi s off localOffset (by omega) (by omega) (by omega)
    (by omega) (by omega) (by omega)
    (fun pos oh om he => by rw [he] at hoffb; exact hoffb) hl1 hl2]
  rw [jsDateUTC_valid (y : Int) (mo : Int) (d : Int) (h : Int) (mi : Int) (s : Int)
    (by omega) (by omega) (by omega) (by omega)]
  rfl

/-- C2 witness: the amended statement at a concrete timestamp with an
explicit `+0500` offset and local offset `0`. -/
theorem parseTimeStr_canonical_witness :
    parseTimeStr (mkTimeStr 2024 1 1 18 0 0 (some (true, 5, 0))) 0 =
      some (specNaiveUTC 2024 1 1 18 0 0
        - tzMinutes (some (true, 5, 0)) * 60000 + 0 * 60000) := by
  exact parseTimeStr_canonical 2024 1 1 18 0 0 (some (true, 5, 0)) 0 (by norm_num)
    (by norm_num) (by norm_num) (by norm_num) (by norm_num) (by norm_num) (by norm_num)
    (by norm_num) ⟨by norm_num, by norm_num⟩ (by norm_num) (by norm_num)

/-- C2 (counterexample to the original claim): with no explicit offset
and caller offset 60 minutes the stored instant is NOT the naive fields
taken as UTC — the local offset is added on top. -/
theorem parseTimeStr_adds_local_offset :
    parseTimeStr ("20240101000000".data) 60 = some 1704070800000 ∧
    specNaiveUTC 2024 1 1 0 0 0 = 1704067200000 ∧
    (1704070800000 : Int) ≠ 1704067200000 := by
  exact ⟨rfl, rfl, by decide⟩

/-! ## Claim C3 -/

/-- C3: `findProgrammeForSlot` scans the selected candidate list (sorted
ascending by start) and returns a programme only if it overlaps the
half-open slot, in which case it is the earliest-starting overlapping
candidate; it returns `none` exactly when no candidate overlaps. -/
theorem findProgrammeForSlot_spec (doc : XmlDoc) (lo : Int) (ch : Channel)
    (slotStart slotEnd : Int) :
    (∀ p, findProgrammeForSlot (loadEpgState doc lo) ch slotStart slotEnd = some p →
      p ∈ selectList (loadEpgState doc lo) ch ∧ overlaps p slotStart slotEnd ∧
        ∀ q ∈ selectList (loadEpgState doc lo) ch, overlaps q slotStart slotEnd →
          p.start ≤ q.start) ∧
    (findProgrammeForSlot (loadEpgState doc lo) ch slotStart slotEnd = none ↔
      ∀ q ∈ selectList (loadEpgState doc lo) ch, ¬ overlaps q slotStart slotEnd) := by
  constructor
  · intro p hp
    obtain ⟨hm, ho⟩ := findProgInList_some slotStart slotEnd
      (selectList (loadEpgState doc lo) ch) p hp
    exact ⟨hm, ho, findProgInList_first slotStart slotEnd
      (selectList (loadEpgState doc lo) ch) p (selectList_sorted doc lo ch) hp⟩
  · exact findProgInList_none_iff slotStart slotEnd (selectList (loadEpgState doc lo) ch)

/-- C3 witness: on `feedTvg` the matcher returns the 18:00 programme
for the 18:00-18:30 slot, and it indeed overlaps. -/
theorem findProgrammeForSlot_spec_witness :
    overlaps { title := "News", subtitle := "", desc := "", rating := "", season := none,
               episodeNumber := none, start := 1704132000000, endTime := 1704135600000,
               icon := none } 1704132000000 1704133800000 := by
  exact ((findProgrammeForSlot_spec feedTvg 0 ⟨"Bar", none⟩ 1704132000000 1704133800000).1
    { title := "News", subtitle := "", desc := "", rating := "", season := none,
      episodeNumber := none, start := 1704132000000, endTime := 1704135600000,
      icon := none } (by rfl)).2.1

/-! ## Claim C4 (counterexample; the amended tier equivalence is
`findProgramme_tier_selection` above) -/

/-- C4 (counterexample to the original claim): a channel with
`tvgId = some ""` (non-null, and `""` is present as a key of the
feed-identifier index) is claimed to use tier 1, but the code's
truthiness test skips the empty-string identifier and answers from the
name tier instead. -/
theorem tier_selection_requires_truthy_id :
    selectList (loadEpgState feedEmptyId 0) ⟨"x", some ""⟩ ≠
      claimCandidates (loadEpgState feedEmptyId 0) ⟨"x", some ""⟩ := by
  decide

/-! ## Claim C7 -/

/-- C7: every bucket of both indices returned by `parseEpgXml` (by
display name and by feed channel identifier), and of the normalized
index derived from the first, is sorted ascending by `start`. -/
theorem parseEpgXml_buckets_sorted (doc : XmlDoc) (lo : Int) (k : String)
    (l : List Programme) :
    (lookupKey (parseEpgXml doc lo).1 k = some l → SortedByStart l) ∧
    (lookupKey (parseEpgXml doc lo).2 k = some l → SortedByStart l) ∧
    (lookupKey (normalizeIndex (parseEpgXml doc lo).1) k = some l → SortedByStart l) := by
  obtain ⟨h1, h2, h3⟩ := loadEpgState_sorted doc lo
  exact ⟨fun h => h1 k l h, fun h => h3 k l h, fun h => h2 k l h⟩

/-- C7 witness: the concrete `"Bar"` bucket of `feedTvg` is sorted. -/
theorem parseEpgXml_buckets_sorted_witness :
    SortedByStart [{ title := "News", subtitle := "", desc := "", rating := "",
                     season := none, episodeNumber := none, start := 1704132000000,
                     endTime := 1704135600000, icon := none }] := by
  exact (parseEpgXml_buckets_sorted feedTvg 0 "Bar"
    [{ title := "News", subtitle := "", desc := "", rating := "", season := none,
       episodeNumber := none, start := 1704132000000, endTime := 1704135600000,
       icon := none }]).1 (by rfl)

/-! ## Claim C8 -/

/-- C8: parsing is a total function of the document (the Lean embedding
is a total `def`, so no input raises), and on unparseable structure —
modelled as a document exposing no channel and no programme elements —
both indices, and the derived normalized index, are empty. -/
theorem parseEpgXml_empty_on_unparseable (doc : XmlDoc) (lo : Int)
    (hch : doc.channels = []) (hpr : doc.programmes = []) :
    parseEpgXml doc lo = ([], []) ∧ normalizeIndex (parseEpgXml doc lo).1 = [] := by
  have hd : doc = ⟨[], []⟩ := by cases doc; simp_all
  rw [hd]
  exact ⟨rfl, rfl⟩

/-- C8 witness: the empty document at local offset 0. -/
theorem parseEpgXml_empty_on_unparseable_witness :
    parseEpgXml ⟨[], []⟩ 0 = ([], []) ∧ normalizeIndex (parseEpgXml ⟨[], []⟩ 0).1 = [] := by
  exact parseEpgXml_empty_on_unparseable ⟨[], []⟩ 0 rfl rfl

/-! ## Claim C9 -/

/-- C9 (amended): programmes accumulate per exact resolved display
name: every successfully parsed entry's record is present in the
display-name index bucket of its resolved name.  The normalized index
does NOT merge same-name-up-to-case buckets — the last writer wins
(counterexample `normalized_bucket_drops_programmes`). -/
theorem programmes_accumulate_by_resolved_name (doc : XmlDoc) (lo : Int)
    (e : XmlProgramme) (he : e ∈ doc.programmes) (st en : Int)
    (hst : parseTimeStr e.start.data lo = some st)
    (hen : parseTimeStr e.stop.data lo = some en) :
    buildRecord (channelMaps doc.channels).2 e st en ∈
      (lookupKey (loadEpgState doc lo).epgSchedule
        (resolveDisplayName (channelMaps doc.channels).1 e.channel)).getD [] := by
  have hm : buildRecord (channelMaps doc.channels).2 e st en ∈
      (lookupKey (insertProgrammes doc lo).1
        (resolveDisplayName (channelMaps doc.channels).1 e.channel)).getD [] :=
    record_mem_insertFold doc.programmes (channelMaps doc.channels).1
      (channelMaps doc.channels).2 lo ([], []) e he st en hst hen
  have hsch : (loadEpgState doc lo).epgSchedule =
      (insertProgrammes doc lo).1.map (fun kv => (kv.1, sortByStart kv.2)) := rfl
  rw [hsch, lookupKey_mapVal]
  cases h0 : lookupKey (insertProgrammes doc lo).1
      (resolveDisplayName (channelMaps doc.channels).1 e.channel) with
  | none =>
    rw [h0] at hm
    simp at hm
  | some l0 =>
    rw [h0] at hm
    simp only [Option.getD_some] at hm
    simp only [Option.map_some', Option.getD_some]
    exact (mem_sortByStart _ l0).mpr hm

/-- C9 witness: the first `feedCase` programme is in the `"Alpha"`
display-name bucket. -/
theorem programmes_accumulate_by_resolved_name_witness :
    buildRecord (channelMaps feedCase.channels).2
        { channel := "c1", start := "20240101180000", stop := "20240101190000",
          title := some "P1", subTitle := none, episodeNum := none, desc := none,
          ratingValue := none } 1704132000000 1704135600000 ∈
      (lookupKey (loadEpgState feedCase 0).epgSchedule
        (resolveDisplayName (channelMaps feedCase.channels).1 "c1")).getD [] := by
  exact programmes_accumulate_by_resolved_name feedCase 0
    { channel := "c1", start := "20240101180000", stop := "20240101190000",
      title := some "P1", subTitle := none, episodeNum := none, desc := none,
      ratingValue := none } (by decide) 1704132000000 1704135600000 (by rfl) (by rfl)

/-- C9 (counterexample to the original claim): in `feedCase` the
channels named `"Alpha"` and `"alpha"` collapse to normalized key
`"alpha"`, but the normalized bucket holds only the later channel's
programme; the `"Alpha"` programme is dropped from it, not accumulated. -/
theorem normalized_bucket_drops_programmes :
    ({ title := "P1", subtitle := "", desc := "", rating := "", season := none,
       episodeNumber := none, start := 1704132000000, endTime := 1704135600000,
       icon := none } : Programme) ∈
      (lookupKey (loadEpgState feedCase 0).epgSchedule "Alpha").getD [] ∧
    ({ title := "P1", subtitle := "", desc := "", rating := "", season := none,
       episodeNumber := none, start := 1704132000000, endTime := 1704135600000,
       icon := none } : Programme) ∉
      (lookupKey (loadEpgState feedCase 0).epgScheduleNormalized "alpha").getD [] := by
  exact ⟨by decide, by decide⟩

/-! ## Claim C10 -/

/-- C10 (amended): the presence flag tests only the raw display-name
bucket, so flag = true does imply the matcher's candidate list is
non-empty; but a channel whose programmes are reachable through the
feed-identifier tier can still be flagged as having no EPG data
(counterexample `presence_flag_misses_tvg_channel`). -/
theorem channelHasEpgEntries_gives_candidates (doc : XmlDoc) (lo : Int) (ch : Channel)
    (h : channelHasEpgEntries (loadEpgState doc lo) ch = true) :
    selectList (loadEpgState doc lo) ch ≠ [] := by
  obtain ⟨hne1, hne2, hne3⟩ := loadEpgState_nonempty doc lo
  cases hsch : lookupKey (loadEpgState doc lo).epgSchedule ch.name with
  | none =>
    unfold channelHasEpgEntries at h
    rw [hsch] at h
    simp at h
  | some l =>
    have hnorm : (lookupKey (loadEpgState doc lo).epgScheduleNormalized
        (jsToLowerCase ch.name)).isSome :=
      loadEpgState_key_lower doc lo ch.name (by rw [hsch]; rfl)
    unfold selectList
    split_ifs with hT
    · obtain ⟨hT1, hT2⟩ := hT
      cases hP : lookupKey (loadEpgState doc lo).epgScheduleByTvgId (ch.tvgId.getD "") with
      | none =>
        rw [hP] at hT2
        simp at hT2
      | some lb =>
        simpa using hne3 _ (lookupKey_some_mem _ _ _ hP)
    · cases h2 : lookupKey (loadEpgState doc lo).epgScheduleNormalized
          (jsToLowerCase ch.name) with
      | none =>
        rw [h2] at hnorm
        simp at hnorm
      | some l2 =>
        simpa using hne2 _ (lookupKey_some_mem _ _ _ h2)

/-- C10 witness: on `feedTvg` the channel named `"Bar"` is flagged as
having data and indeed gets a non-empty candidate list. -/
theorem channelHasEpgEntries_gives_candidates_witness :
    selectList (loadEpgState feedTvg 0) ⟨"Bar", none⟩ ≠ [] := by
  exact channelHasEpgEntries_gives_candidates feedTvg 0 ⟨"Bar", none⟩ (by rfl)

/-- C10 (counterexample to the original claim): the channel
`{name := "Foo", tvgId := some "5"}` is matched through the
feed-identifier tier (the slot matcher returns its programme), yet the
presence flag — which only consults `epgSchedule["Foo"]` — is false. -/
theorem presence_flag_misses_tvg_channel :
    findProgrammeForSlot (loadEpgState feedTvg 0) ⟨"Foo", some "5"⟩
        1704132000000 1704133800000 =
      some { title := "News", subtitle := "", desc := "", rating := "", season := none,
             episodeNumber := none, start := 1704132000000, endTime := 1704135600000,
             icon := none } ∧
    channelHasEpgEntries (loadEpgState feedTvg 0) ⟨"Foo", some "5"⟩ = false := by
  exact ⟨rfl, rfl⟩

/-! ## Claim C5 -/

/-- C5 (amended): for every canonical timestamp with an explicit signed
offset, re-expressing the stored instant MINUS the caller's local-offset
contribution in the original offset reproduces the wall-clock fields;
without that correction the round-trip fails for a non-zero local
offset (counterexample `offset_roundTrip_fails_with_local_offset`). -/
theorem parseTimeStr_offset_roundTrip (y mo d h mi s : Nat) (pos : Bool) (oh om : Nat)
    (localOffset : Int) (hy : 100 ≤ y) (hy2 : y ≤ 9999) (hmo1 : 1 ≤ mo) (hmo2 : mo ≤ 12)
    (hd1 : 1 ≤ d) (hdm : (d : Int) ≤ daysInMonth (y : Int) (mo : Int))
    (hh : h ≤ 23) (hmi2 : mi ≤ 59) (hs : s ≤ 59) (hoh : oh ≤ 99) (hom : om ≤ 99)
    (hl1 : -1440 ≤ localOffset) (hl2 : localOffset ≤ 1440) :
    ∃ t, parseTimeStr (mkTimeStr y mo d h mi s (some (pos, oh, om))) localOffset = some t ∧
      fieldsAtOffset (t - localOffset * 60000) (tzMinutes (some (pos, oh, om))) =
        ⟨(y : Int), (mo : Int), (d : Int), (h : Int), (mi : Int), (s : Int)⟩ := by
  have hdim : daysInMonth (y : Int) (mo : Int) ≤ 31 := by
    unfold daysInMonth
    split_ifs <;> omega
  have hd99 : d ≤ 99 := by omega
  refine ⟨_, parseTimeStr_mkTimeStr y mo d h mi s (some (pos, oh, om)) localOffset
    (by omega) (by omega) (by omega) (by omega) (by omega) (by omega)
    (fun p o m he => by
      simp only [Option.some.injEq, Prod.mk.injEq] at he
      obtain ⟨-, rfl, rfl⟩ := he
      exact ⟨hoh, hom⟩) hl1 hl2, ?_⟩
  have harith : jsDateUTC (y : Int) ((mo : Int) - 1) (d : Int) (h : Int) (mi : Int) (s : Int)
      - tzMinutes (some (pos, oh, om)) * 60000 + localOffset * 60000 - localOffset * 60000
      + tzMinutes (some (pos, oh, om)) * 60000
      = jsDateUTC (y : Int) ((mo : Int) - 1) (d : Int) (h : Int) (mi : Int) (s : Int) := by
    ring
  unfold fieldsAtOffset
  rw [harith]
  rw [jsDateUTC_valid (y : Int) (mo : Int) (d : Int) (h : Int) (mi : Int) (s : Int)
    (by omega) (by omega) (by omega) (by omega)]
  exact fieldsAt_encode (y : Int) (mo : Int) (d : Int) (h : Int) (mi : Int) (s : Int)
    (by omega) (by omega) (by omega) hdm (by omega) (by omega) (by omega) (by omega)
    (by omega) (by omega)

/-- C5 witness: the amended round-trip at a concrete leap-day timestamp
with offset `+0530` and local offset 300 minutes. -/
theorem parseTimeStr_offset_roundTrip_witness :
    ∃ t, parseTimeStr (mkTimeStr 2024 2 29 23 59 59 (some (true, 5, 30))) 300 = some t ∧
      fieldsAtOffset (t - 300 * 60000) (tzMinutes (some (true, 5, 30))) =
        ⟨2024, 2, 29, 23, 59, 59⟩ := by
  exact parseTimeStr_offset_roundTrip 2024 2 29 23 59 59 true 5 30 300 (by norm_num)
    (by norm_num) (by norm_num) (by norm_num) (by norm_num) (by decide) (by norm_num)
    (by norm_num) (by norm_num) (by norm_num) (by norm_num) (by norm_num) (by norm_num)

/-- C5 (counterexample to the original claim): midnight with explicit
offset `+0000` parsed at local offset 60 re-expresses (in that same
offset) as 01:00, not the original 00:00. -/
theorem offset_roundTrip_fails_with_local_offset :
    parseTimeStr ("20240101000000 +0000".data) 60 = some 1704070800000 ∧
    fieldsAtOffset 1704070800000 0 = ⟨2024, 1, 1, 1, 0, 0⟩ ∧
    (⟨2024, 1, 1, 1, 0, 0⟩ : WallClock) ≠ ⟨2024, 1, 1, 0, 0, 0⟩ := by
  exact ⟨rfl, by decide, by decide⟩

/-! ## Claim C6 -/

/-- C6 (amended): each handler checks only its own direction against a
fixed 12-hour step — back rejects exactly when `start - 12h` falls
before `now - 7d`, forward exactly when `start + 12h` falls after
`now + 7d`; on rejection the window start is unchanged and a notice is
reported, on commit the start moves by exactly 12 hours.  The original
two-sided per-delta bound is refuted by
`scrollForward_commits_outside_window`. -/
theorem scroll_handlers_spec (start now : Int) :
    ((scrollBackClick start now).committed = false ↔
      start - 43200000 < now - 604800000) ∧
    ((scrollBackClick start now).committed = false →
      (scrollBackClick start now).timeWindowStart = start ∧
      (scrollBackClick start now).message = "Cannot go back more than 1 week") ∧
    ((scrollBackClick start now).committed = true →
      (scrollBackClick start now).timeWindowStart = start - 43200000) ∧
    ((scrollForwardClick start now).committed = false ↔
      now + 604800000 < start + 43200000) ∧
    ((scrollForwardClick start now).committed = false →
      (scrollForwardClick start now).timeWindowStart = start ∧
      (scrollForwardClick start now).message = "Cannot go forward more than 1 week") ∧
    ((scrollForwardClick start now).committed = true →
      (scrollForwardClick start now).timeWindowStart = start + 43200000) := by
  have hb : scrollBackClick start now =
      if start - 43200000 < now - 604800000 then
        ⟨start, false, "Cannot go back more than 1 week"⟩
      else ⟨start - 43200000, true, "Scrolled -12 hours"⟩ := by
    norm_num [scrollBackClick]
  have hf : scrollForwardClick start now =
      if now + 604800000 < start + 43200000 then
        ⟨start, false, "Cannot go forward more than 1 week"⟩
      else ⟨start + 43200000, true, "Scrolled +12 hours"⟩ := by
    norm_num [scrollForwardClick]
  rw [hb, hf]
  by_cases h1 : start - 43200000 < now - 604800000 <;>
    by_cases h2 : now + 604800000 < start + 43200000 <;>
      simp [h1, h2]

/-- C6 witness: a back click at `start = now = 0` commits and moves the
window start to exactly -12 hours. -/
theorem scroll_handlers_spec_witness :
    (scrollBackClick 0 0).timeWindowStart = 0 - 43200000 := by
  exact (scroll_handlers_spec 0 0).2.2.1 (by rfl)

/-- C6 (counterexample to the original claim): from a stale window
start 20 days in the past, a +12h shift lands at 19.5 days in the past
— far earlier than `now - 7d` — yet the forward handler commits it,
because it only checks the forward bound. -/
theorem scrollForward_commits_outside_window :
    (scrollForwardClick (-1728000000) 0).committed = true ∧
    (scrollForwardClick (-1728000000) 0).timeWindowStart = -1684800000 ∧
    (-1684800000 : Int) < 0 - 604800000 := by
  exact ⟨rfl, rfl, by decide⟩

/-- C1 witness: the inverted-interval record of `feedInverted` indeed
originates from an entry whose two timestamps parsed. -/
theorem stored_programme_instants_parsed_witness :
    ∃ e ∈ feedInverted.programmes,
      parseTimeStr e.start.data 0 = some (1704135600000 : Int) ∧
      parseTimeStr e.stop.data 0 = some (1704132000000 : Int) := by
  exact stored_programme_instants_parsed feedInverted 0 "A"
    { title := "Bad", subtitle := "", desc := "", rating := "", season := none,
      episodeNumber := none, start := 1704135600000, endTime := 1704132000000,
      icon := none } (Or.inl (by decide))
